import Mathlib

/-!
Shopify-api-node: rate-limited dispatcher, call-limit tracker and constructor.

A shallow embedding of `src/index.js`.

* `valvelet(fn, limit, interval, size)` (lines 24-61) is a closure over a
  `queue`, a counter `count` and the three inner functions `timeout`, `shift`
  and `limiter`.  JavaScript runs each of them to completion on one thread, so
  the closure is modelled as a record `Valve` and every callback as a function
  from record to record.  The asynchronous environment (the promise returned by
  `bucket.removeTokens(1)` and the timers created by `setTimeout`) is kept as
  two counters of callbacks that have been registered and have not run yet;
  the events `Event` let the environment run them in any order.
* `Shopify.prototype.updateLimits` (lines 118-129) is modelled on a record
  holding `callLimits` and the list of emitted `updateLimits` events, over a
  model of JavaScript numbers (`JSNum`) and of `Number(string)`.
* The constructor `Shopify` (lines 76-108) is the function `newShopify` from
  the options to an error or an instance.
* The class `TokenBucket` comes from the package `tokenbucket`; only its
  construction (lines 18-22) and the call `removeTokens(1)` are in this file,
  so the bucket is modelled from the specification.

Values handled by the dispatcher (`this`, arguments, results, errors) are
drawn from an arbitrary type `α`.
-/

namespace ShopifyApi

/-! ## The dispatcher `valvelet` -/

/-- What the promise returned by the wrapped function does.  `resolve(x)`
makes the caller's promise follow `x`, so this is also what the caller sees. -/
inductive Returned (α : Type) where
  /-- a plain value `v`, or a promise fulfilled with `v` -/
  | fulfils (v : α)
  /-- a promise rejected with `e` -/
  | rejects (e : α)
  /-- a promise that never settles -/
  | pends
  deriving DecidableEq, Repr

/-- Outcome of the call `fn.apply(data[0], data[1])`. -/
inductive Outcome (α : Type) where
  /-- the call returned -/
  | returned (r : Returned α)
  /-- the call threw `e` before returning -/
  | threw (e : α)
  deriving DecidableEq, Repr

/-- State of a promise handed out by `limiter`, once something was done to it. -/
inductive Resolution (α : Type) where
  /-- after `reject(new Error(msg))` -/
  | rejected (msg : String)
  /-- after `resolve(x)` where `x` behaves as `r` -/
  | resolved (r : Returned α)
  deriving DecidableEq, Repr

/-- Queue entry `[this, args, resolve]`; `resolve` is identified by the number
of the promise it belongs to. -/
structure Entry (α : Type) where
  self : α
  args : List α
  resolve : Nat
  deriving DecidableEq, Repr

/-- What reaches the handler `.catch(function (err) { console.log(err) })`. -/
inductive Caught (α : Type) where
  /-- the rejection `e` of `bucket.removeTokens(1)` -/
  | bucket (e : α)
  /-- the `TypeError` raised by `data[2]` when `data` is `undefined` -/
  | typeError
  /-- the exception `e` thrown by `fn.apply` -/
  | work (e : α)
  deriving DecidableEq, Repr

/-- A line written by `console.log`. -/
inductive LogLine (α : Type) where
  /-- the line `'Tokens left: ' + remainingTokens` -/
  | tokensLeft (remainingTokens : Nat)
  /-- the line of `console.log(err)` -/
  | err (c : Caught α)
  deriving DecidableEq, Repr

/-- The closure state of one `valvelet` call together with its pending
callbacks and a record of what has been observed so far. -/
structure Valve (α : Type) where
  /-- the array `const queue = []` -/
  queue : List (Entry α)
  /-- the counter `let count = 0` -/
  count : Int
  /-- promises of `bucket.removeTokens(1)` that have not settled yet -/
  requests : Nat
  /-- timers set by `setTimeout(timeout, interval)` that have not fired yet -/
  timers : Nat
  /-- number of promises created by `limiter` so far -/
  promises : Nat
  /-- observed: entries pushed on the queue, oldest first -/
  accepted : List (Entry α)
  /-- observed: entries handed to `fn.apply`, oldest first -/
  started : List (Entry α)
  /-- observed: promises rejected or resolved, oldest first -/
  settled : List (Nat × Resolution α)
  /-- observed: number of `removeTokens(1)` promises that were fulfilled -/
  grants : Nat
  /-- observed: `console.log` output, oldest first -/
  log : List (LogLine α)
  deriving DecidableEq, Repr

/-- The parameters `fn`, `limit`, `size` of `valvelet` (`interval` only sets
the delay of the timers, which the model leaves to the environment). -/
structure Config (α : Type) where
  fn : α → List α → Outcome α
  limit : Int
  /-- the argument `size`, `none` when it is omitted -/
  size : Option Nat

/-- Line 28, `size || (size = Math.pow(2, 32) - 1)`. -/
def capacity (size : Option Nat) : Nat :=
  match size with
  | none => 2 ^ 32 - 1
  | some 0 => 2 ^ 32 - 1
  | some n => n

/-- State right after `valvelet(...)` returned: lines 25-26. -/
def fresh (α : Type) : Valve α :=
  { queue := [], count := 0, requests := 0, timers := 0, promises := 0,
    accepted := [], started := [], settled := [], grants := 0, log := [] }

/-- Lines 35-49, the synchronous part of `shift`: one call of
`bucket.removeTokens(1)` and one `setTimeout(timeout, interval)`. -/
def shift {α : Type} (s : Valve α) : Valve α :=
  { s with requests := s.requests + 1, timers := s.timers + 1 }

/-- Lines 30-33. -/
def timeout {α : Type} (s : Valve α) : Valve α :=
  let s1 := { s with count := s.count - 1 }
  if s1.queue.length ≠ 0 then shift s1 else s1

/-- Lines 37-43, the handler passed to `.then`, followed by the `.catch`
handler of lines 44-46 for whatever it throws. -/
def granted {α : Type} (c : Config α) (s : Valve α) (remainingTokens : Nat) : Valve α :=
  let s1 := { s with grants := s.grants + 1,
                     log := s.log ++ [LogLine.tokensLeft remainingTokens],
                     count := s.count + 1 }
  match s1.queue with
  | [] => { s1 with log := s1.log ++ [LogLine.err Caught.typeError] }
  | data :: rest =>
    let s2 := { s1 with queue := rest, started := s1.started ++ [data] }
    match c.fn data.self data.args with
    | Outcome.returned r =>
      { s2 with settled := s2.settled ++ [(data.resolve, Resolution.resolved r)] }
    | Outcome.threw e => { s2 with log := s2.log ++ [LogLine.err (Caught.work e)] }

/-- Lines 44-46 when `bucket.removeTokens(1)` itself rejects with `e`. -/
def refused {α : Type} (s : Valve α) (e : α) : Valve α :=
  { s with log := s.log ++ [LogLine.err (Caught.bucket e)] }

/-- Lines 51-60.  The result is the number of the returned promise and the
new state. -/
def limiter {α : Type} (c : Config α) (s : Valve α) (self : α) (args : List α) :
    Nat × Valve α :=
  let p := s.promises
  let s1 := { s with promises := s.promises + 1 }
  if s1.queue.length = capacity c.size then
    (p, { s1 with settled := s1.settled ++ [(p, Resolution.rejected "Queue is full")] })
  else
    let data : Entry α := { self := self, args := args, resolve := p }
    let s2 := { s1 with queue := s1.queue ++ [data], accepted := s1.accepted ++ [data] }
    (p, if s2.count < c.limit then shift s2 else s2)

/-- One turn of the event loop. -/
inductive Event (α : Type) where
  /-- a caller invokes the limiter with `this = self` and arguments `args` -/
  | call (self : α) (args : List α)
  /-- a pending `removeTokens(1)` promise is fulfilled with `remainingTokens` -/
  | grant (remainingTokens : Nat)
  /-- a pending `removeTokens(1)` promise is rejected with `e` -/
  | fail (e : α)
  /-- a pending timer fires -/
  | fire
  deriving DecidableEq, Repr

/-- Run one event; `none` when the event cannot happen in `s` (there is no
pending token request, or no pending timer). -/
def step {α : Type} (c : Config α) (s : Valve α) : Event α → Option (Valve α)
  | Event.call self args => some (limiter c s self args).2
  | Event.grant n =>
    if s.requests = 0 then none
    else some (granted c { s with requests := s.requests - 1 } n)
  | Event.fail e =>
    if s.requests = 0 then none
    else some (refused { s with requests := s.requests - 1 } e)
  | Event.fire =>
    if s.timers = 0 then none
    else some (timeout { s with timers := s.timers - 1 })

/-- Run a sequence of events from `s`. -/
def run {α : Type} (c : Config α) (s : Valve α) : List (Event α) → Option (Valve α)
  | [] => some s
  | e :: es => (step c s e).bind (fun s1 => run c s1 es)

/-- State `s` is reachable: some sequence of events leads from the fresh
dispatcher to it. -/
def Reachable {α : Type} (c : Config α) (s : Valve α) : Prop :=
  ∃ es : List (Event α), run c (fresh α) es = some s


/-! ## JavaScript numbers and `Number(string)` -/

/-- A JavaScript number: an IEEE 754 double.  A finite double other than `-0`
is given by its exact rational value; `fin 0` is `+0`. -/
inductive JSNum where
  | nan
  | posInf
  | negInf
  | negZero
  | fin (q : ℚ)
  deriving DecidableEq

/-- Floor of the base-2 logarithm of `k`, for `0 < k ≤ fuel`. -/
def log2Aux : Nat → Nat → Nat
  | 0, _ => 0
  | fuel + 1, k => if k < 2 then 0 else log2Aux fuel (k / 2) + 1

/-- Floor of the base-2 logarithm of a positive integer. -/
def log2 (n : Nat) : Nat := log2Aux n n

/-- Floor of the base-2 logarithm of `n / d`, for positive `n` and `d`. -/
def floorLog2 (n d : Nat) : Int :=
  let k : Int := (log2 n : Int) - (log2 d : Int)
  if d * 2 ^ k.toNat ≤ n * 2 ^ (-k).toNat then k else k - 1

/-- The integer nearest to `n / d`, ties going to the even one. -/
def roundHalfEven (n d : Nat) : Nat :=
  let q := n / d
  let r := n % d
  if 2 * r < d then q
  else if d < 2 * r then q + 1
  else if q % 2 = 0 then q else q + 1

/-- The double nearest to `n / d` for positive `n` and `d` (round to nearest,
ties to even; 53 bits of precision, least exponent -1022, so that the
spacing never goes below `2 ^ (-1074)`); `none` when the result is too large
for a finite double. -/
def nearest (n d : Nat) : Option ℚ :=
  let e : Int := if floorLog2 n d < -1022 then -1022 else floorLog2 n d
  let x : Int := e - 52
  let m := roundHalfEven (n * 2 ^ (-x).toNat) (d * 2 ^ x.toNat)
  let v : ℚ := (m : ℚ) * (2 : ℚ) ^ x
  if (2 : ℚ) ^ (1024 : Nat) ≤ v then none else some v

/-- The double for the real number `± n / d`. -/
def ofRatio (neg : Bool) (n d : Nat) : JSNum :=
  if n = 0 then (if neg then JSNum.negZero else JSNum.fin 0)
  else match nearest n d with
    | none => if neg then JSNum.negInf else JSNum.posInf
    | some v =>
      if v = 0 then (if neg then JSNum.negZero else JSNum.fin 0)
      else JSNum.fin (if neg then -v else v)

/-- The double for a non-zero rational, `+0` for zero. -/
def ofRat (q : ℚ) : JSNum :=
  if q = 0 then JSNum.fin 0 else ofRatio (decide (q < 0)) q.num.natAbs q.den

namespace JSNum

/-- Unary minus. -/
def neg : JSNum → JSNum
  | nan => nan
  | posInf => negInf
  | negInf => posInf
  | negZero => fin 0
  | fin q => if q = 0 then negZero else fin (-q)

/-- The operator `+` on numbers. -/
def add : JSNum → JSNum → JSNum
  | nan, _ => nan
  | _, nan => nan
  | posInf, negInf => nan
  | negInf, posInf => nan
  | posInf, _ => posInf
  | _, posInf => posInf
  | negInf, _ => negInf
  | _, negInf => negInf
  | negZero, negZero => negZero
  | negZero, fin q => fin q
  | fin q, negZero => fin q
  | fin a, fin b => ofRat (a + b)

/-- The operator `-` on numbers: `x - y` is `x + (-y)`. -/
def sub (x y : JSNum) : JSNum := add x (neg y)

end JSNum

/-- White space and line terminators, which `Number` strips from both ends. -/
def isStrWhiteSpace (c : Char) : Bool :=
  let n := c.toNat
  n = 0x9 || n = 0xA || n = 0xB || n = 0xC || n = 0xD || n = 0x20 || n = 0xA0
    || n = 0x1680 || (0x2000 ≤ n && n ≤ 0x200A) || n = 0x2028 || n = 0x2029
    || n = 0x202F || n = 0x205F || n = 0x3000 || n = 0xFEFF

/-- Strip white space from both ends. -/
def trim (s : List Char) : List Char :=
  ((s.dropWhile isStrWhiteSpace).reverse.dropWhile isStrWhiteSpace).reverse

/-- Value of a digit `0-9`, `a-z`, `A-Z`. -/
def digitValue (c : Char) : Option Nat :=
  let n := c.toNat
  if 48 ≤ n ∧ n ≤ 57 then some (n - 48)
  else if 97 ≤ n ∧ n ≤ 122 then some (n - 87)
  else if 65 ≤ n ∧ n ≤ 90 then some (n - 55)
  else none

/-- Read `s` as digits in `base`, most significant first, continuing from the
value `acc`; `none` if some character is not a digit of that base. -/
def readDigits (base : Nat) (acc : Nat) : List Char → Option Nat
  | [] => some acc
  | c :: cs =>
    match digitValue c with
    | none => none
    | some d => if d < base then readDigits base (acc * base + d) cs else none

/-- A decimal digit. -/
def isDecimalDigit (c : Char) : Bool :=
  decide (48 ≤ c.toNat) && decide (c.toNat ≤ 57)

/-- The double for `± m * 10 ^ x`. -/
def ofDecimal (neg : Bool) (m : Nat) (x : Int) : JSNum :=
  if 0 ≤ x then ofRatio neg (m * 10 ^ x.toNat) 1 else ofRatio neg m (10 ^ (-x).toNat)

/-- The exponent part of a decimal literal: nothing, or `e`/`E`, an optional
sign and at least one digit.  `none` if `s` is neither. -/
def exponentPart (s : List Char) : Option Int :=
  match s with
  | [] => some 0
  | c :: r =>
    if c = 'e' ∨ c = 'E' then
      match r with
      | [] => none
      | d :: r1 =>
        if d = '+' then
          (if r1 = [] then none else (readDigits 10 0 r1).map (fun k => (k : Int)))
        else if d = '-' then
          (if r1 = [] then none else (readDigits 10 0 r1).map (fun k => -(k : Int)))
        else (readDigits 10 0 (d :: r1)).map (fun k => (k : Int))
    else none

/-- An unsigned decimal literal, `Infinity`, or neither (`NaN`): digits, an
optional `.` with more digits, an optional exponent; at least one digit before
the exponent. -/
def decimalLiteral (neg : Bool) (t : List Char) : JSNum :=
  if t = ['I', 'n', 'f', 'i', 'n', 'i', 't', 'y'] then
    (if neg then JSNum.negInf else JSNum.posInf)
  else
    let ip := t.takeWhile isDecimalDigit
    let r1 := t.dropWhile isDecimalDigit
    let fp := match r1 with
      | [] => []
      | c :: r => if c = '.' then r.takeWhile isDecimalDigit else []
    let r2 := match r1 with
      | [] => []
      | c :: r => if c = '.' then r.dropWhile isDecimalDigit else c :: r
    if ip = [] ∧ fp = [] then JSNum.nan
    else match exponentPart r2, readDigits 10 0 (ip ++ fp) with
      | some x, some m => ofDecimal neg m (x - (fp.length : Int))
      | _, _ => JSNum.nan

/-- The base announced by a prefix `0x`, `0o`, `0b` (either case) and the
text after it. -/
def radixPrefix (t : List Char) : Option (Nat × List Char) :=
  match t with
  | c0 :: c1 :: ds =>
    if c0 = '0' then
      if c1 = 'x' ∨ c1 = 'X' then some (16, ds)
      else if c1 = 'o' ∨ c1 = 'O' then some (8, ds)
      else if c1 = 'b' ∨ c1 = 'B' then some (2, ds)
      else none
    else none
  | _ => none

/-- The call `Number(s)` for a string `s`: the empty or blank string is `+0`, a numeric
literal is its value rounded to a double, anything else is `NaN`. -/
def Number (s : List Char) : JSNum :=
  match trim s with
  | [] => JSNum.fin 0
  | c :: t =>
    if c = '+' then decimalLiteral false t
    else if c = '-' then decimalLiteral true t
    else match radixPrefix (c :: t) with
      | some (base, ds) =>
        if ds = [] then JSNum.nan
        else match readDigits base 0 ds with
          | some m => ofRatio false m 1
          | none => JSNum.nan
      | none => decimalLiteral false (c :: t)

/-! ## `Shopify.prototype.updateLimits` -/

/-- A value stored in `callLimits`: `undefined` or a number. -/
inductive JSVal where
  | undefined
  | number (x : JSNum)
  deriving DecidableEq

/-- Conversion of a value to a number, as done by the operator `-`. -/
def JSVal.toNumber : JSVal → JSNum
  | JSVal.undefined => JSNum.nan
  | JSVal.number x => x

/-- The expression `a - b`. -/
def JSVal.minus (a b : JSVal) : JSVal :=
  JSVal.number (JSNum.sub a.toNumber b.toNumber)

/-- The method `String.prototype.split` with a one-character separator. -/
def split (sep : Char) : List Char → List (List Char)
  | [] => [[]]
  | c :: cs =>
    if c = sep then [] :: split sep cs
    else match split sep cs with
      | [] => [[c]]
      | p :: ps => (c :: p) :: ps

/-- Element `i` of an array of numbers, `undefined` past its end. -/
def index (limits : List JSNum) (i : Nat) : JSVal :=
  match limits.get? i with
  | some x => JSVal.number x
  | none => JSVal.undefined

/-- The object `callLimits` (lines 92-96). -/
structure CallLimits where
  remaining : JSVal
  current : JSVal
  max : JSVal
  deriving DecidableEq

/-- The part of a `Shopify` instance that `updateLimits` touches. -/
structure Shopify where
  callLimits : CallLimits
  /-- arguments of the `'updateLimits'` events emitted so far, oldest first -/
  emitted : List CallLimits
  deriving DecidableEq

/-- Lines 118-129.  The header is `none` when the caller passes `undefined`. -/
def updateLimits (self : Shopify) (header : Option (List Char)) : Shopify :=
  match header with
  | none => self
  | some [] => self
  | some (c :: cs) =>
    let limits := (split '/' (c :: cs)).map Number
    let callLimits : CallLimits :=
      { remaining := JSVal.minus (index limits 1) (index limits 0),
        current := index limits 0,
        max := index limits 1 }
    { callLimits := callLimits, emitted := self.emitted ++ [callLimits] }


/-! ## The constructor `Shopify` -/

/-- The option `autoLimit` (line 71, `Boolean|Object`). -/
inductive AutoLimit where
  /-- absent or falsy -/
  | absent
  /-- a truthy value without own properties `calls` and `interval`, such as `true` -/
  | flag
  /-- an object; `none` stands for a property that is not given -/
  | object (calls : Option Int) (interval : Option Int)
  deriving DecidableEq

/-- The argument `options` of the constructor (lines 66-72).  A string option
is `none` when it is `undefined`. -/
structure Options where
  shopName : Option String
  apiKey : Option String
  password : Option String
  accessToken : Option String
  autoLimit : AutoLimit
  timeout : Option Int
  deriving DecidableEq

/-- Truthiness of a string option: `undefined` and `''` are falsy. -/
def truthy (v : Option String) : Bool :=
  match v with
  | none => false
  | some s => decide (s ≠ "")

/-- Text of a string option inside a template literal. -/
def template (v : Option String) : String :=
  match v with
  | none => "undefined"
  | some s => s

/-- Line 105, `assign({ calls: 2, interval: 1000 }, options.autoLimit)`: the
pair `(conf.calls, conf.interval)`. -/
def assignAutoLimit (a : AutoLimit) : Int × Int :=
  match a with
  | AutoLimit.absent => (2, 1000)
  | AutoLimit.flag => (2, 1000)
  | AutoLimit.object calls interval =>
    ((match calls with | some c => c | none => 2),
     (match interval with | some i => i | none => 1000))

/-- The arguments `limit`, `interval`, `size` of a call of `valvelet`. -/
structure ValveletArgs where
  limit : Int
  interval : Int
  /-- the argument `size`, `none` when it is omitted -/
  size : Option Nat
  deriving DecidableEq

/-- The object `baseUrl` (lines 98-102); `auth` is `none` when it is `false`. -/
structure BaseUrl where
  auth : Option String
  hostname : String
  protocol : String
  deriving DecidableEq

/-- A `Shopify` instance as the constructor leaves it. -/
structure Instance where
  /-- the options, after `defaults(options, { timeout: 60000 })` -/
  options : Options
  callLimits : CallLimits
  baseUrl : BaseUrl
  /-- the own property `request`: `none` when the constructor did not set it
  (the method of the prototype is used as it is), else the arguments with
  which `valvelet(this.request, ...)` was called -/
  request : Option ValveletArgs
  deriving DecidableEq

/-- Lines 76-108, `new Shopify(options)`; `options` is `none` when it is
missing.  An error stands for the exception thrown at line 84. -/
def newShopify (options : Option Options) : Except String Instance :=
  match options with
  | none => Except.error "Missing or invalid options"
  | some o =>
    if !truthy o.shopName
        || (!truthy o.accessToken && (!truthy o.apiKey || !truthy o.password))
        || (truthy o.accessToken && (truthy o.apiKey || truthy o.password)) then
      Except.error "Missing or invalid options"
    else
      Except.ok
        { options := { o with timeout := some (match o.timeout with
                                                | some t => t
                                                | none => 60000) },
          callLimits := { remaining := JSVal.undefined, current := JSVal.undefined,
                          max := JSVal.undefined },
          baseUrl := { auth := if !truthy o.accessToken then
                                 some (template o.apiKey ++ ":" ++ template o.password)
                               else none,
                       hostname := template o.shopName ++ ".myshopify.com",
                       protocol := "https:" },
          request := match o.autoLimit with
            | AutoLimit.absent => none
            | a => some { limit := (assignAutoLimit a).1,
                          interval := (assignAutoLimit a).2,
                          size := none } }

/-! ## The token bucket -/

/-- Modelled from the spec: the `TokenBucket` of the package `tokenbucket`
(required at line 17), whose source is not under `src/`.  It holds a
`capacity`, a refill policy and the tokens `available`; requests that cannot
be served wait in arrival order, each with the number of tokens it asked for. -/
structure TokenBucket where
  capacity : Nat
  refillAmount : Nat
  available : Int
  waiters : List Nat
  deriving DecidableEq

/-- Modelled from the spec: the instance built at lines 18-22 with `size: 38`
and `tokensToAddPerInterval: 2` (the constructor of `TokenBucket` is not under
`src/`); `tokensLeft` is the number of tokens it starts with. -/
def bucket (tokensLeft : Int) : TokenBucket :=
  { capacity := 38, refillAmount := 2, available := tokensLeft, waiters := [] }

/-- Modelled from the spec: `removeTokens(count)` of the package
`tokenbucket`, not under `src/`.  If `available ≥ count` the tokens are taken
at once, otherwise the request joins the waiters. -/
def TokenBucket.removeTokens (b : TokenBucket) (count : Nat) : TokenBucket :=
  if (count : Int) ≤ b.available then { b with available := b.available - count }
  else { b with waiters := b.waiters ++ [count] }

/-- Modelled from the spec: the refill timer of the package `tokenbucket`, not
under `src/`.  It adds `refillAmount` tokens, capped at `capacity`, and then
tries to satisfy the head of the waiters. -/
def TokenBucket.refill (b : TokenBucket) : TokenBucket :=
  let filled : Int :=
    if b.available + b.refillAmount ≤ b.capacity then b.available + b.refillAmount
    else b.capacity
  match b.waiters with
  | [] => { b with available := filled }
  | count :: rest =>
    if (count : Int) ≤ filled then { b with available := filled - count, waiters := rest }
    else { b with available := filled }

/-- Modelled from the spec: one thing that happens to the token bucket of the
package `tokenbucket`, not under `src/`: a call of `removeTokens`, or a firing
of the refill timer. -/
inductive BucketEvent where
  | removeTokens (count : Nat)
  | refill
  deriving DecidableEq

/-- Modelled from the spec: the token bucket of the package `tokenbucket`, not
under `src/`, after a sequence of calls and refills. -/
def TokenBucket.run (b : TokenBucket) : List BucketEvent → TokenBucket
  | [] => b
  | BucketEvent.removeTokens count :: es => TokenBucket.run (b.removeTokens count) es
  | BucketEvent.refill :: es => TokenBucket.run b.refill es

/-! ## Properties of the dispatcher -/

/-- A property that holds in `s` and is kept by every event holds after any
sequence of events from `s`. -/
theorem run_invariant {α : Type} (c : Config α) (P : Valve α → Prop)
    (hstep : ∀ s e s1, P s → step c s e = some s1 → P s1) :
    ∀ (es : List (Event α)) (s s1 : Valve α), P s → run c s es = some s1 → P s1 := by
  intro es
  induction es with
  | nil =>
    intro s s1 hs h
    simp only [run, Option.some.injEq] at h
    exact h ▸ hs
  | cons e es ih =>
    intro s s1 hs h
    simp only [run] at h
    cases hst : step c s e with
    | none => simp [hst] at h
    | some s2 =>
      rw [hst] at h
      exact ih s2 s1 (hstep s e s2 hs hst) h

/-- Every event keeps `started ++ queue = accepted`. -/
theorem step_fifo {α : Type} (c : Config α) (s : Valve α) (e : Event α) (s1 : Valve α)
    (hs : s.started ++ s.queue = s.accepted) (h : step c s e = some s1) :
    s1.started ++ s1.queue = s1.accepted := by
  cases e with
  | call self args =>
    simp only [step, limiter, Option.some.injEq] at h
    subst h
    split
    · exact hs
    · split <;> simp [shift, ← hs]
  | grant n =>
    simp only [step] at h
    split at h
    · exact absurd h (by simp)
    · simp only [Option.some.injEq] at h
      subst h
      unfold granted
      cases hq : s.queue with
      | nil => simpa [hq] using hs
      | cons d r =>
        simp only [hq]
        split <;> simp [← hs, hq]
  | fail err =>
    simp only [step] at h
    split at h
    · exact absurd h (by simp)
    · simp only [Option.some.injEq] at h
      subst h
      simpa [refused] using hs
  | fire =>
    simp only [step] at h
    split at h
    · exact absurd h (by simp)
    · simp only [Option.some.injEq] at h
      subst h
      by_cases hq : s.queue.length = 0 <;> simp [timeout, shift, hq, hs]


/-- Every event that hands an entry to `fn` is a token grant, it hands over at
most one entry, and it counts one grant. -/
theorem step_started {α : Type} (c : Config α) (s : Valve α) (e : Event α) (s1 : Valve α)
    (h : step c s e = some s1) :
    (s1.started = s.started ∧ s.grants ≤ s1.grants) ∨
      ((∃ n, e = Event.grant n) ∧ s1.grants = s.grants + 1 ∧
        ∃ d, s.queue.head? = some d ∧ s1.started = s.started ++ [d]) := by
  cases e with
  | call self args =>
    left
    simp only [step, limiter, Option.some.injEq] at h
    subst h
    split
    · exact ⟨rfl, le_refl _⟩
    · split <;> simp [shift]
  | grant n =>
    simp only [step] at h
    split at h
    · exact absurd h (by simp)
    · simp only [Option.some.injEq] at h
      subst h
      unfold granted
      cases hq : s.queue with
      | nil => left; simp [hq]
      | cons d r =>
        right
        simp only [hq]
        refine ⟨⟨n, rfl⟩, ?_, d, rfl, ?_⟩ <;> split <;> simp
  | fail err =>
    left
    simp only [step] at h
    split at h
    · exact absurd h (by simp)
    · simp only [Option.some.injEq] at h
      subst h
      simp [refused]
  | fire =>
    left
    simp only [step] at h
    split at h
    · exact absurd h (by simp)
    · simp only [Option.some.injEq] at h
      subst h
      by_cases hq : s.queue.length = 0 <;> simp [timeout, shift, hq]

/-- Claim C1.  When the queue holds `size` entries, a call of the limiter
rejects the promise it returns with the error 'Queue is full'; the queue, the
counter `count`, the pending token requests and the pending timers are left
as they were, and nothing is admitted or started. -/
theorem limiter_rejects_when_full {α : Type} (c : Config α) (s : Valve α) (self : α)
    (args : List α) (h : s.queue.length = capacity c.size) :
    (limiter c s self args).2.settled
        = s.settled ++ [((limiter c s self args).1, Resolution.rejected "Queue is full")] ∧
      (limiter c s self args).2.queue = s.queue ∧
      (limiter c s self args).2.count = s.count ∧
      (limiter c s self args).2.requests = s.requests ∧
      (limiter c s self args).2.timers = s.timers ∧
      (limiter c s self args).2.accepted = s.accepted ∧
      (limiter c s self args).2.started = s.started := by
  simp [limiter, h]

/-- Witness for `limiter_rejects_when_full`: capacity 1 and one queued entry. -/
theorem limiter_rejects_when_full_witness :
    (limiter (α := Nat) ⟨fun _ _ => Outcome.returned Returned.pends, 1, some 1⟩
        { fresh Nat with queue := [⟨0, [], 0⟩], accepted := [⟨0, [], 0⟩], promises := 1,
                         requests := 1, timers := 1 } 7 [8]).2.settled
      = [(1, Resolution.rejected "Queue is full")] :=
  (limiter_rejects_when_full (α := Nat) ⟨fun _ _ => Outcome.returned Returned.pends, 1, some 1⟩
    { fresh Nat with queue := [⟨0, [], 0⟩], accepted := [⟨0, [], 0⟩], promises := 1,
                     requests := 1, timers := 1 } 7 [8] (by decide)).1

/-- Claim C2.  When the queue holds fewer than `size` entries, a call of the
limiter rejects nothing: no promise is settled by the call, and the entry
`[this, args, resolve]` of the returned promise is appended at the tail of the
queue, whose length grows by one with the earlier entries in place. -/
theorem limiter_appends_when_not_full {α : Type} (c : Config α) (s : Valve α) (self : α)
    (args : List α) (h : s.queue.length < capacity c.size) :
    (limiter c s self args).2.queue
        = s.queue ++ [{ self := self, args := args, resolve := (limiter c s self args).1 }] ∧
      (limiter c s self args).2.queue.length = s.queue.length + 1 ∧
      (limiter c s self args).2.settled = s.settled ∧
      (limiter c s self args).1 = s.promises := by
  have hne : ¬ s.queue.length = capacity c.size := Nat.ne_of_lt h
  by_cases hc : s.count < c.limit <;> simp [limiter, hne, hc, shift]

/-- Witness for `limiter_appends_when_not_full`: the first call on a fresh
dispatcher with the default capacity. -/
theorem limiter_appends_when_not_full_witness :
    (limiter (α := Nat) ⟨fun _ _ => Outcome.returned Returned.pends, 2, none⟩
        (fresh Nat) 7 [8]).2.queue = [⟨7, [8], 0⟩] :=
  (limiter_appends_when_not_full (α := Nat) ⟨fun _ _ => Outcome.returned Returned.pends, 2, none⟩
    (fresh Nat) 7 [8] (by decide)).1

/-- Claim C3, evaluated on the code: with `limit = 2`, three calls of the
limiter followed by the three token grants they requested lead to a reachable
state with `count = 3`, above the limit. -/
theorem count_exceeds_limit :
    ∃ s : Valve Nat,
      run ⟨fun _ _ => Outcome.returned Returned.pends, 2, none⟩ (fresh Nat)
        [Event.call 0 [], Event.call 0 [], Event.call 0 [],
         Event.grant 37, Event.grant 36, Event.grant 35] = some s ∧
      Reachable ⟨fun _ _ => Outcome.returned Returned.pends, 2, none⟩ s ∧
      s.count = 3 ∧ ¬ s.count ≤ 2 :=
  ⟨_, rfl,
    ⟨[Event.call 0 [], Event.call 0 [], Event.call 0 [],
      Event.grant 37, Event.grant 36, Event.grant 35], rfl⟩,
    by decide, by decide⟩

/-- Claim C4.  In every reachable state the entries handed to `fn` so far,
in the order they were started, followed by the entries still queued, are
exactly the entries admitted so far in admission order; so the started
entries are an initial segment of the admitted ones and the `i`-th entry
started is the `i`-th entry admitted. -/
theorem started_fifo {α : Type} (c : Config α) (es : List (Event α)) (s : Valve α)
    (h : run c (fresh α) es = some s) :
    s.started ++ s.queue = s.accepted ∧ s.started <+: s.accepted ∧
      ∀ i, i < s.started.length → s.started[i]? = s.accepted[i]? := by
  have inv : s.started ++ s.queue = s.accepted :=
    run_invariant c (fun t => t.started ++ t.queue = t.accepted) (step_fifo c) es (fresh α) s
      rfl h
  refine ⟨inv, ⟨s.queue, inv⟩, ?_⟩
  intro i hi
  rw [← inv, List.getElem?_append_left hi]

/-- Witness for `started_fifo`: three entries admitted, two of them started. -/
theorem started_fifo_witness :
    ([⟨1, [], 0⟩, ⟨2, [], 1⟩] : List (Entry Nat)) <+: [⟨1, [], 0⟩, ⟨2, [], 1⟩, ⟨3, [], 2⟩] :=
  (started_fifo (α := Nat) ⟨fun _ _ => Outcome.returned Returned.pends, 5, none⟩
    [Event.call 1 [], Event.call 2 [], Event.grant 37, Event.call 3 [], Event.grant 36]
    _ rfl).2.1

/-- When `fn` returns, the grant handler resolves the promise of the head
entry with exactly what `fn` returned for that entry's `this` and arguments. -/
theorem granted_forwards_outcome {α : Type} (c : Config α) (s : Valve α) (n : Nat)
    (d : Entry α) (rest : List (Entry α)) (r : Returned α) (hq : s.queue = d :: rest)
    (hf : c.fn d.self d.args = Outcome.returned r) :
    (granted c s n).settled = s.settled ++ [(d.resolve, Resolution.resolved r)] ∧
      (granted c s n).started = s.started ++ [d] ∧ (granted c s n).queue = rest := by
  simp [granted, hq, hf]

/-- Claim C5, evaluated on the code: when `fn` throws, the entry is started
and leaves the queue, the error is only written to the console, and the
promise returned to the caller (number 0) is never settled. -/
theorem throwing_work_leaves_promise_unsettled :
    ∃ s : Valve Nat,
      run ⟨fun _ _ => Outcome.threw 99, 1, none⟩ (fresh Nat)
        [Event.call 5 [6], Event.grant 37] = some s ∧
      s.started = [⟨5, [6], 0⟩] ∧ s.queue = [] ∧ s.settled = [] ∧
      s.log = [LogLine.tokensLeft 37, LogLine.err (Caught.work 99)] :=
  ⟨_, rfl, by decide, by decide, by decide, by decide⟩

/-- Claim C6.  In every reachable state the number of entries handed to `fn`
is at most the number of token grants; and whatever event comes next, if it
hands an entry to `fn` then it is a token grant, which counts as one more
grant and starts exactly one entry, the head of the queue. -/
theorem started_le_grants {α : Type} (c : Config α) (es : List (Event α)) (s : Valve α)
    (e : Event α) (s1 : Valve α) (h : run c (fresh α) es = some s)
    (h1 : step c s e = some s1) :
    s.started.length ≤ s.grants ∧ s1.started.length ≤ s1.grants ∧
      (s1.started ≠ s.started →
        (∃ n, e = Event.grant n) ∧ s1.grants = s.grants + 1 ∧
          ∃ d, s.queue.head? = some d ∧ s1.started = s.started ++ [d]) := by
  have keep : ∀ (t : Valve α) (ev : Event α) (t1 : Valve α),
      t.started.length ≤ t.grants → step c t ev = some t1 → t1.started.length ≤ t1.grants := by
    intro t ev t1 ht hst
    rcases step_started c t ev t1 hst with ⟨h3, h4⟩ | ⟨_, h4, d, _, h5⟩
    · rw [h3]; exact le_trans ht h4
    · rw [h5, h4, List.length_append]; simpa using ht
  have inv : s.started.length ≤ s.grants :=
    run_invariant c (fun t => t.started.length ≤ t.grants) keep es (fresh α) s (by simp [fresh]) h
  refine ⟨inv, keep s e s1 inv h1, ?_⟩
  intro hne
  rcases step_started c s e s1 h1 with ⟨h3, _⟩ | h3
  · exact absurd h3 hne
  · exact h3

/-- Witness for `started_le_grants`: after two calls and one grant, the second
grant starts the second entry. -/
theorem started_le_grants_witness :
    ([⟨1, [], 0⟩] : List (Entry Nat)).length ≤ 1 ∧
      ([⟨1, [], 0⟩, ⟨2, [], 1⟩] : List (Entry Nat)).length ≤ 2 :=
  ⟨(started_le_grants (α := Nat) ⟨fun _ _ => Outcome.returned Returned.pends, 5, none⟩
      [Event.call 1 [], Event.call 2 [], Event.grant 37] _ (Event.grant 36) _ rfl rfl).1,
   (started_le_grants (α := Nat) ⟨fun _ _ => Outcome.returned Returned.pends, 5, none⟩
      [Event.call 1 [], Event.call 2 [], Event.grant 37] _ (Event.grant 36) _ rfl rfl).2.1⟩


/-! ## Properties of the number model -/

theorem log2Aux_spec : ∀ (fuel k : Nat), 0 < k → k ≤ fuel →
    2 ^ log2Aux fuel k ≤ k ∧ k < 2 ^ (log2Aux fuel k + 1) := by
  intro fuel
  induction fuel with
  | zero => intro k h0 h1; omega
  | succ f ih =>
    intro k h0 h1
    unfold log2Aux
    by_cases hk : k < 2
    · simp only [hk, if_true]
      constructor <;> simp <;> omega
    · simp only [hk, if_false]
      have h2 := ih (k / 2) (by omega) (by omega)
      obtain ⟨a, b⟩ := h2
      constructor
      · rw [pow_succ]; omega
      · rw [pow_succ]; omega

theorem log2_spec (n : Nat) (h : 0 < n) : 2 ^ log2 n ≤ n ∧ n < 2 ^ (log2 n + 1) :=
  log2Aux_spec n n h (le_refl n)

theorem roundHalfEven_one (a : Nat) : roundHalfEven a 1 = a := by
  simp [roundHalfEven, Nat.mod_one]

theorem floorLog2_one (n : Nat) (h : 0 < n) : floorLog2 n 1 = (log2 n : Int) := by
  have h1 : log2 1 = 0 := by decide
  have h2 := (log2_spec n h).1
  simp [floorLog2, h1, h2]

/-- Every positive integer up to `2 ^ 53` is a double. -/
theorem nearest_nat (n : Nat) (h0 : 0 < n) (h : n ≤ 2 ^ 53) : nearest n 1 = some (n : ℚ) := by
  rcases Nat.lt_or_ge n (2 ^ 53) with hlt | hge
  · have hs := log2_spec n h0
    have hl : log2 n < 53 := by
      by_contra hcon
      have : 2 ^ 53 ≤ 2 ^ log2 n := Nat.pow_le_pow_right (by norm_num) (by omega)
      omega
    obtain ⟨t, ht⟩ : ∃ t : Nat, log2 n + t = 52 := ⟨52 - log2 n, by omega⟩
    have hx : (log2 n : Int) - 52 = -(t : Int) := by omega
    have hq : (n : ℚ) < 2 ^ 1024 := by
      have : (n : ℚ) < (2 ^ 53 : Nat) := by exact_mod_cast hlt
      refine lt_trans this ?_
      norm_num
    unfold nearest
    simp only [floorLog2_one n h0]
    have hnl : ¬ ((log2 n : Int) < -1022) := by omega
    simp only [hnl, if_false, hx, neg_neg, Int.toNat_ofNat]
    have htn : (-(t : Int)).toNat = 0 := by omega
    simp only [htn, pow_zero, mul_one, roundHalfEven_one]
    have hv : (((n * 2 ^ t : Nat) : ℚ)) * (2 : ℚ) ^ (-(t : Int)) = (n : ℚ) := by
      rw [zpow_neg, zpow_natCast]
      push_cast
      field_simp
    rw [hv]
    simp [not_le.mpr hq]
  · have : n = 2 ^ 53 := le_antisymm h hge
    subst this
    decide!


theorem ofRatio_nat (n : Nat) (h : n ≤ 2 ^ 53) : ofRatio false n 1 = JSNum.fin (n : ℚ) := by
  unfold ofRatio
  by_cases h0 : n = 0
  · simp [h0]
  · have hq : ¬ ((n : ℚ) = 0) := by exact_mod_cast h0
    simp [h0, nearest_nat n (Nat.pos_of_ne_zero h0) h, hq]

theorem ofRatio_neg_nat (n : Nat) (h0 : 0 < n) (h : n ≤ 2 ^ 53) :
    ofRatio true n 1 = JSNum.fin (-(n : ℚ)) := by
  unfold ofRatio
  have hq : ¬ ((n : ℚ) = 0) := by exact_mod_cast (Nat.pos_iff_ne_zero.mp h0)
  simp [Nat.pos_iff_ne_zero.mp h0, nearest_nat n h0 h, hq]

/-- The difference of two integers up to `2 ^ 53` is computed exactly. -/
theorem sub_nat (a b : Nat) (ha : a ≤ 2 ^ 53) (hb : b ≤ 2 ^ 53) :
    JSNum.sub (JSNum.fin (b : ℚ)) (JSNum.fin (a : ℚ)) = JSNum.fin ((b : ℚ) - (a : ℚ)) := by
  unfold JSNum.sub JSNum.neg
  by_cases h0 : a = 0
  · subst h0
    simp [JSNum.add]
  · have hq : ¬ ((a : ℚ) = 0) := by exact_mod_cast h0
    simp only [hq, if_false, JSNum.add]
    unfold ofRat
    by_cases hab : (b : ℚ) + -(a : ℚ) = 0
    · simp only [hab, if_true]
      congr 1
      linarith
    · simp only [hab, if_false]
      have hz : (b : ℚ) + -(a : ℚ) = (((b : Int) - (a : Int) : Int) : ℚ) := by
        push_cast; ring
      have hne : (b : Int) - (a : Int) ≠ 0 := by
        intro hc
        apply hab
        rw [hz, hc]
        simp
      have hnum : ((b : ℚ) + -(a : ℚ)).num = (b : Int) - (a : Int) := by
        rw [hz, Rat.num_intCast]
      have hden : ((b : ℚ) + -(a : ℚ)).den = 1 := by
        rw [hz, Rat.den_intCast]
      rw [hnum, hden]
      have hpos : 0 < ((b : Int) - (a : Int)).natAbs := Int.natAbs_pos.mpr hne
      have hle : ((b : Int) - (a : Int)).natAbs ≤ 2 ^ 53 := by omega
      by_cases hlt : (b : ℚ) + -(a : ℚ) < 0
      · simp only [hlt, decide_True]
        rw [ofRatio_neg_nat _ hpos hle]
        congr 1
        have hi : (b : Int) - (a : Int) < 0 := by
          have : (((b : Int) - (a : Int) : Int) : ℚ) < 0 := by rw [← hz]; exact hlt
          exact_mod_cast this
        have h2 : ((((b : Int) - (a : Int)).natAbs : Nat) : ℚ)
            = -(((b : Int) - (a : Int) : Int) : ℚ) := by
          rw [Nat.cast_natAbs, abs_of_neg hi, Int.cast_neg]
        rw [h2]
        push_cast
        ring
      · simp only [hlt, decide_False]
        rw [ofRatio_nat _ hle]
        congr 1
        have hi : 0 ≤ (b : Int) - (a : Int) := by
          have : ¬ ((((b : Int) - (a : Int) : Int) : ℚ) < 0) := by rw [← hz]; exact hlt
          have h3 : ¬ ((b : Int) - (a : Int) < 0) := by exact_mod_cast this
          omega
        have h2 : ((((b : Int) - (a : Int)).natAbs : Nat) : ℚ)
            = (((b : Int) - (a : Int) : Int) : ℚ) := by
          rw [Nat.cast_natAbs, abs_of_nonneg hi]
        rw [h2]
        push_cast
        ring

theorem digitChar_decimal (k : Nat) (h : k < 10) :
    digitValue (Nat.digitChar k) = some k ∧ isDecimalDigit (Nat.digitChar k) = true := by
  interval_cases k <;> decide

theorem readDigits_append (b : Nat) : ∀ (xs ys : List Char) (acc : Nat),
    readDigits b acc (xs ++ ys) = (readDigits b acc xs).bind (fun a => readDigits b a ys) := by
  intro xs
  induction xs with
  | nil => intro ys acc; simp [readDigits]
  | cons c cs ih =>
    intro ys acc
    simp only [List.cons_append, readDigits]
    cases digitValue c with
    | none => simp
    | some d =>
      by_cases hd : d < b
      · simp [hd, ih]
      · simp [hd]

/-- The decimal digits written by `Nat.toDigitsCore`: a non-empty run of
decimal digits that reads back as the number. -/
theorem toDigitsCore_decimal : ∀ (fuel n : Nat) (ds : List Char), n < fuel →
    ∃ L : List Char, Nat.toDigitsCore 10 fuel n ds = L ++ ds ∧ L ≠ [] ∧
      (∀ c ∈ L, isDecimalDigit c = true) ∧
      ∀ acc, readDigits 10 acc L = some (acc * 10 ^ L.length + n) := by
  intro fuel
  induction fuel with
  | zero => intro n ds h; omega
  | succ f ih =>
    intro n ds h
    have hd := digitChar_decimal (n % 10) (Nat.mod_lt n (by norm_num))
    rw [Nat.toDigitsCore]
    by_cases hz : n / 10 = 0
    · simp only [hz, if_true]
      have hn : n % 10 = n := by omega
      have hlt : n < 10 := by omega
      rw [hn] at hd ⊢
      refine ⟨[Nat.digitChar n], rfl, by simp, ?_, ?_⟩
      · intro c hc
        simp only [List.mem_singleton] at hc
        rw [hc]; exact hd.2
      · intro acc
        simp [readDigits, hd.1, hlt]
    · simp only [hz, if_false]
      obtain ⟨L, h1, h2, h3, h4⟩ := ih (n / 10) (Nat.digitChar (n % 10) :: ds) (by omega)
      refine ⟨L ++ [Nat.digitChar (n % 10)], by simp [h1], by simp, ?_, ?_⟩
      · intro c hc
        rcases List.mem_append.mp hc with hc | hc
        · exact h3 c hc
        · simp only [List.mem_singleton] at hc
          rw [hc]; exact hd.2
      · intro acc
        rw [readDigits_append, h4]
        simp only [Option.some_bind, readDigits, hd.1, Nat.mod_lt n (by norm_num : 10 > 0),
          if_true, List.length_append, List.length_singleton]
        congr 1
        rw [pow_succ]
        have := Nat.div_add_mod n 10
        nlinarith [this]

theorem toDigits_decimal (n : Nat) :
    Nat.toDigits 10 n ≠ [] ∧ (∀ c ∈ Nat.toDigits 10 n, isDecimalDigit c = true) ∧
      readDigits 10 0 (Nat.toDigits 10 n) = some n := by
  obtain ⟨L, h1, h2, h3, h4⟩ := toDigitsCore_decimal (n + 1) n [] (Nat.lt_succ_self n)
  have hL : Nat.toDigits 10 n = L := by simp [Nat.toDigits, h1]
  rw [hL]
  exact ⟨h2, h3, by simpa using h4 0⟩


theorem decimalDigit_bounds (c : Char) (h : isDecimalDigit c = true) :
    48 ≤ c.toNat ∧ c.toNat ≤ 57 := by
  simpa [isDecimalDigit] using h

theorem decimalDigit_not_space (c : Char) (h : isDecimalDigit c = true) :
    isStrWhiteSpace c = false := by
  have hb := decimalDigit_bounds c h
  simp only [isStrWhiteSpace, Bool.or_eq_false_iff, Bool.and_eq_false_iff, decide_eq_false_iff_not]
  omega

theorem decimalDigit_ne (c d : Char) (h : isDecimalDigit c = true)
    (hd : isDecimalDigit d = false) : c ≠ d := by
  intro hc
  rw [hc, hd] at h
  exact absurd h (by simp)

theorem dropWhile_none {p : Char → Bool} : ∀ (l : List Char), (∀ c ∈ l, p c = false) →
    l.dropWhile p = l := by
  intro l h
  cases l with
  | nil => rfl
  | cons c t => simp [List.dropWhile, h c (List.mem_cons_self c t)]

theorem trim_digits (l : List Char) (h : ∀ c ∈ l, isDecimalDigit c = true) : trim l = l := by
  unfold trim
  rw [dropWhile_none l (fun c hc => decimalDigit_not_space c (h c hc)),
    dropWhile_none l.reverse
      (fun c hc => decimalDigit_not_space c (h c (List.mem_reverse.mp hc))),
    List.reverse_reverse]

theorem takeWhile_all {p : Char → Bool} : ∀ (l : List Char), (∀ c ∈ l, p c = true) →
    l.takeWhile p = l ∧ l.dropWhile p = [] := by
  intro l
  induction l with
  | nil => intro _; exact ⟨rfl, rfl⟩
  | cons c t ih =>
    intro h
    have hc := h c (List.mem_cons_self c t)
    have ht := ih (fun x hx => h x (List.mem_cons_of_mem c hx))
    simp [List.takeWhile, List.dropWhile, hc, ht.1, ht.2]

/-- The `Number` of a non-empty run of decimal digits is the double nearest to the
integer they spell. -/
theorem Number_digits (l : List Char) (n : Nat) (hne : l ≠ [])
    (hd : ∀ c ∈ l, isDecimalDigit c = true) (hr : readDigits 10 0 l = some n) :
    Number l = ofRatio false n 1 := by
  unfold Number
  rw [trim_digits l hd]
  cases l with
  | nil => exact absurd rfl hne
  | cons c t =>
    have hc := hd c (List.mem_cons_self c t)
    have h1 : c ≠ '+' := decimalDigit_ne c '+' hc (by decide)
    have h2 : c ≠ '-' := decimalDigit_ne c '-' hc (by decide)
    have hrp : radixPrefix (c :: t) = none := by
      cases t with
      | nil => rfl
      | cons c1 ds =>
        have hc1 := hd c1 (List.mem_cons_of_mem c (List.mem_cons_self c1 ds))
        have e1 : c1 ≠ 'x' := decimalDigit_ne c1 'x' hc1 (by decide)
        have e2 : c1 ≠ 'X' := decimalDigit_ne c1 'X' hc1 (by decide)
        have e3 : c1 ≠ 'o' := decimalDigit_ne c1 'o' hc1 (by decide)
        have e4 : c1 ≠ 'O' := decimalDigit_ne c1 'O' hc1 (by decide)
        have e5 : c1 ≠ 'b' := decimalDigit_ne c1 'b' hc1 (by decide)
        have e6 : c1 ≠ 'B' := decimalDigit_ne c1 'B' hc1 (by decide)
        simp [radixPrefix, e1, e2, e3, e4, e5, e6]
    simp only [h1, h2, if_false, hrp]
    unfold decimalLiteral
    have hI : c ≠ 'I' := decimalDigit_ne c 'I' hc (by decide)
    have hinf : ¬ (c :: t = ['I', 'n', 'f', 'i', 'n', 'i', 't', 'y']) := by
      intro hcon
      exact hI (List.cons.inj hcon).1
    have htd := takeWhile_all (c :: t) hd
    simp only [hinf, if_false, htd.1, htd.2, List.append_nil, hr, exponentPart]
    simp [ofDecimal]

theorem split_append (sep : Char) : ∀ (xs ys : List Char), (∀ c ∈ xs, c ≠ sep) →
    split sep (xs ++ sep :: ys) = xs :: split sep ys := by
  intro xs
  induction xs with
  | nil => intro ys _; simp [split]
  | cons c cs ih =>
    intro ys h
    have hc := h c (List.mem_cons_self c cs)
    have ht := ih ys (fun x hx => h x (List.mem_cons_of_mem c hx))
    simp [split, hc, ht]

theorem split_none (sep : Char) : ∀ (xs : List Char), (∀ c ∈ xs, c ≠ sep) →
    split sep xs = [xs] := by
  intro xs
  induction xs with
  | nil => intro _; rfl
  | cons c cs ih =>
    intro h
    have hc := h c (List.mem_cons_self c cs)
    have ht := ih (fun x hx => h x (List.mem_cons_of_mem c hx))
    simp [split, hc, ht]

/-- A header made of two decimal numerals around one `/` splits into them. -/
theorem split_header (a b : Nat) :
    split '/' (Nat.toDigits 10 a ++ '/' :: Nat.toDigits 10 b)
      = [Nat.toDigits 10 a, Nat.toDigits 10 b] := by
  have ha := (toDigits_decimal a).2.1
  have hb := (toDigits_decimal b).2.1
  rw [split_append '/' _ _ (fun c hc => decimalDigit_ne c '/' (ha c hc) (by decide)),
    split_none '/' _ (fun c hc => decimalDigit_ne c '/' (hb c hc) (by decide))]

theorem Number_toDigits (n : Nat) (h : n ≤ 2 ^ 53) :
    Number (Nat.toDigits 10 n) = JSNum.fin (n : ℚ) := by
  have hn := toDigits_decimal n
  rw [Number_digits _ n hn.1 hn.2.1 hn.2.2, ofRatio_nat n h]

/-! ## Properties of `updateLimits` -/

/-- Claim C7, as the code has it.  For a header `"<used>/<max>"` written with
the decimal numerals of two non-negative integers that are at most `2 ^ 53`,
`updateLimits` sets `current = used`, `max = max` and
`remaining = max - used`, whatever `callLimits` held before. -/
theorem updateLimits_sets_limits (self : Shopify) (used max : Nat)
    (hu : used ≤ 2 ^ 53) (hm : max ≤ 2 ^ 53) :
    (updateLimits self (some (Nat.toDigits 10 used ++ '/' :: Nat.toDigits 10 max))).callLimits
      = { remaining := JSVal.number (JSNum.fin ((max : ℚ) - (used : ℚ))),
          current := JSVal.number (JSNum.fin (used : ℚ)),
          max := JSVal.number (JSNum.fin (max : ℚ)) } := by
  have hs := split_header used max
  have hne := (toDigits_decimal used).1
  cases hA : Nat.toDigits 10 used with
  | nil => exact absurd hA hne
  | cons c cs =>
    rw [hA] at hs
    simp only [List.cons_append] at hs ⊢
    simp only [updateLimits, hs, List.map, index, List.get?, JSVal.minus, JSVal.toNumber]
    rw [← hA, Number_toDigits used hu, Number_toDigits max hm, sub_nat used max hu hm]

/-- Witness for `updateLimits_sets_limits`: the header `"2/40"`, as written by
`Nat.toDigits`, on an instance whose limits are still `undefined`. -/
theorem updateLimits_sets_limits_witness :
    Nat.toDigits 10 2 ++ '/' :: Nat.toDigits 10 40 = "2/40".toList ∧
    (updateLimits ⟨⟨JSVal.undefined, JSVal.undefined, JSVal.undefined⟩, []⟩
        (some (Nat.toDigits 10 2 ++ '/' :: Nat.toDigits 10 40))).callLimits
      = { remaining := JSVal.number (JSNum.fin 38),
          current := JSVal.number (JSNum.fin 2),
          max := JSVal.number (JSNum.fin 40) } := by
  refine ⟨by decide, ?_⟩
  rw [updateLimits_sets_limits _ 2 40 (by norm_num) (by norm_num)]
  norm_num

/-- Claim C7 as stated fails on the code: in the header
`"9007199254740993/9007199254740993"` both numbers are `2 ^ 53 + 1`, and
`updateLimits` stores `2 ^ 53` in `current` and in `max`. -/
theorem updateLimits_rounds_large_integers :
    Nat.toDigits 10 (2 ^ 53 + 1) ++ '/' :: Nat.toDigits 10 (2 ^ 53 + 1)
        = "9007199254740993/9007199254740993".toList ∧
    (updateLimits ⟨⟨JSVal.undefined, JSVal.undefined, JSVal.undefined⟩, []⟩
        (some "9007199254740993/9007199254740993".toList)).callLimits
      = { remaining := JSVal.number (JSNum.fin 0),
          current := JSVal.number (JSNum.fin 9007199254740992),
          max := JSVal.number (JSNum.fin 9007199254740992) } ∧
    (updateLimits ⟨⟨JSVal.undefined, JSVal.undefined, JSVal.undefined⟩, []⟩
        (some "9007199254740993/9007199254740993".toList)).callLimits.current
      ≠ JSVal.number (JSNum.fin (((2 ^ 53 + 1 : Nat) : ℚ))) := by
  refine ⟨by decide, by decide!, by decide!⟩


theorem sub_nan_left (x : JSNum) : JSNum.sub JSNum.nan x = JSNum.nan := by
  cases x <;> simp [JSNum.sub, JSNum.add]

theorem sub_nan_right (x : JSNum) : JSNum.sub x JSNum.nan = JSNum.nan := by
  cases x <;> simp [JSNum.sub, JSNum.neg, JSNum.add]

/-- The first piece of `split` is the text before the first separator; the
other pieces are the pieces of the text after it. -/
theorem split_eq (sep : Char) : ∀ (h : List Char),
    split sep h = h.takeWhile (fun c => decide (c ≠ sep)) ::
      (match h.dropWhile (fun c => decide (c ≠ sep)) with
        | [] => []
        | _ :: r => split sep r) := by
  intro h
  induction h with
  | nil => rfl
  | cons c cs ih =>
    by_cases hc : c = sep
    · simp [split, hc, List.takeWhile, List.dropWhile]
    · simp only [split, hc, if_false, ih, List.takeWhile, List.dropWhile, decide_not,
        decide_False, Bool.not_false]

/-- Claim C8.  With an absent (`undefined`) or empty header `updateLimits`
changes nothing: `remaining`, `current` and `max` keep their values and no
`'updateLimits'` event is emitted. -/
theorem updateLimits_absent_header (self : Shopify) :
    (updateLimits self none).callLimits = self.callLimits ∧
      (updateLimits self none).emitted = self.emitted ∧
      (updateLimits self (some [])).callLimits = self.callLimits ∧
      (updateLimits self (some [])).emitted = self.emitted :=
  ⟨rfl, rfl, rfl, rfl⟩

/-- Claim C9 as stated fails on the code: after `"2/40"` was recorded, the
malformed header `"bad/value"` replaces `remaining`, `current` and `max` by
`NaN`. -/
theorem updateLimits_malformed_overwrites :
    (updateLimits
        ⟨⟨JSVal.number (JSNum.fin 38), JSVal.number (JSNum.fin 2), JSVal.number (JSNum.fin 40)⟩,
          []⟩
        (some "bad/value".toList)).callLimits
      = ⟨JSVal.number JSNum.nan, JSVal.number JSNum.nan, JSVal.number JSNum.nan⟩ ∧
    (updateLimits
        ⟨⟨JSVal.number (JSNum.fin 38), JSVal.number (JSNum.fin 2), JSVal.number (JSNum.fin 40)⟩,
          []⟩
        (some "bad/value".toList)).callLimits
      ≠ ⟨JSVal.number (JSNum.fin 38), JSVal.number (JSNum.fin 2), JSVal.number (JSNum.fin 40)⟩ := by
  constructor <;> decide

/-- Claim C9, as the code has it.  For every non-empty header, well formed or
not, `updateLimits` returns, and it overwrites the three fields from the
header alone: `current` is `Number` of the text before the first `/`, `max`
is `Number` of the text between the first and the second `/`, or `undefined`
if the header has no `/`, and `remaining` is `max - current`, which is `NaN`
as soon as `current` is `NaN` or `max` is `NaN` or `undefined`. -/
theorem updateLimits_overwrites (self : Shopify) (h : List Char) (hne : h ≠ []) :
    (updateLimits self (some h)).callLimits.current
        = JSVal.number (Number (h.takeWhile (fun c => decide (c ≠ '/')))) ∧
      (updateLimits self (some h)).callLimits.max
        = (match h.dropWhile (fun c => decide (c ≠ '/')) with
            | [] => JSVal.undefined
            | _ :: r => JSVal.number (Number (r.takeWhile (fun c => decide (c ≠ '/'))))) ∧
      (updateLimits self (some h)).callLimits.remaining
        = JSVal.minus (updateLimits self (some h)).callLimits.max
            (updateLimits self (some h)).callLimits.current ∧
      ((updateLimits self (some h)).callLimits.current = JSVal.number JSNum.nan ∨
          (updateLimits self (some h)).callLimits.max = JSVal.number JSNum.nan ∨
          (updateLimits self (some h)).callLimits.max = JSVal.undefined →
        (updateLimits self (some h)).callLimits.remaining = JSVal.number JSNum.nan) := by
  cases h with
  | nil => exact absurd rfl hne
  | cons c cs =>
    have hrem : (updateLimits self (some (c :: cs))).callLimits.remaining
        = JSVal.minus (updateLimits self (some (c :: cs))).callLimits.max
            (updateLimits self (some (c :: cs))).callLimits.current := rfl
    refine ⟨?_, ?_, hrem, ?_⟩
    · simp only [updateLimits]
      rw [split_eq]
      simp [index]
    · simp only [updateLimits]
      rw [split_eq]
      cases hd : List.dropWhile (fun c => decide (c ≠ '/')) (c :: cs) with
      | nil => simp [index]
      | cons x r =>
        simp only []
        rw [split_eq]
        simp [index]
    · intro hor
      rw [hrem]
      rcases hor with h1 | h1 | h1
      · rw [h1]
        simp [JSVal.minus, JSVal.toNumber, sub_nan_right]
      · rw [h1]
        simp [JSVal.minus, JSVal.toNumber, sub_nan_left]
      · rw [h1]
        simp [JSVal.minus, JSVal.toNumber, sub_nan_left]

/-- Witness for `updateLimits_overwrites`: the header `"bad/value"`. -/
theorem updateLimits_overwrites_witness :
    (updateLimits
        ⟨⟨JSVal.number (JSNum.fin 38), JSVal.number (JSNum.fin 2), JSVal.number (JSNum.fin 40)⟩,
          []⟩
        (some "bad/value".toList)).callLimits.current
      = JSVal.number (Number ("bad/value".toList.takeWhile (fun c => decide (c ≠ '/')))) :=
  (updateLimits_overwrites _ "bad/value".toList (by decide)).1

/-- Claim C10 as stated fails on the code: the header `"bad/value"`, of which
neither side is a number, makes `updateLimits` emit one `'updateLimits'`
event, carrying `NaN` three times. -/
theorem updateLimits_emits_for_malformed :
    (updateLimits
        ⟨⟨JSVal.number (JSNum.fin 38), JSVal.number (JSNum.fin 2), JSVal.number (JSNum.fin 40)⟩,
          []⟩
        (some "bad/value".toList)).emitted
      = [⟨JSVal.number JSNum.nan, JSVal.number JSNum.nan, JSVal.number JSNum.nan⟩] := by
  decide

/-- Claim C10, as the code has it.  `updateLimits` emits the `'updateLimits'`
event exactly once, carrying `callLimits` as just updated, for every non-empty
header, whether its parts are numbers or not, and emits nothing for an absent
or empty header. -/
theorem updateLimits_emits (self : Shopify) (header : Option (List Char)) :
    (updateLimits self header).emitted
      = if header = none ∨ header = some [] then self.emitted
        else self.emitted ++ [(updateLimits self header).callLimits] := by
  cases header with
  | none => simp [updateLimits]
  | some h =>
    cases h with
    | nil => simp [updateLimits]
    | cons c cs => simp [updateLimits]

/-! ## Pending callbacks of the dispatcher -/

/-- What a grant does to the queue and the counters, whatever `fn` does. -/
theorem granted_control {α : Type} (c : Config α) (s : Valve α) (n : Nat) :
    (granted c s n).count = s.count + 1 ∧ (granted c s n).requests = s.requests ∧
      (granted c s n).timers = s.timers ∧ (granted c s n).queue = s.queue.tail ∧
      (granted c s n).promises = s.promises ∧ (granted c s n).accepted = s.accepted ∧
      (granted c s n).grants = s.grants + 1 := by
  unfold granted
  cases hq : s.queue with
  | nil => simp [hq]
  | cons d r =>
    simp only [hq]
    split <;> simp

/-- What a limiter call does to the queue and the counters. -/
theorem limiter_control {α : Type} (c : Config α) (s : Valve α) (self : α) (args : List α) :
    (limiter c s self args).2.count = s.count ∧
      (limiter c s self args).2.promises = s.promises + 1 ∧
      (limiter c s self args).2.started = s.started ∧
      (limiter c s self args).2.grants = s.grants ∧
      (limiter c s self args).2.log = s.log ∧
      (s.queue.length = capacity c.size →
        (limiter c s self args).2.queue = s.queue ∧
        (limiter c s self args).2.requests = s.requests ∧
        (limiter c s self args).2.timers = s.timers) ∧
      (s.queue.length ≠ capacity c.size →
        (limiter c s self args).2.queue = s.queue ++ [⟨self, args, s.promises⟩] ∧
        (s.count < c.limit →
          (limiter c s self args).2.requests = s.requests + 1 ∧
          (limiter c s self args).2.timers = s.timers + 1) ∧
        (¬ s.count < c.limit →
          (limiter c s self args).2.requests = s.requests ∧
          (limiter c s self args).2.timers = s.timers)) := by
  by_cases hf : s.queue.length = capacity c.size
  · simp [limiter, hf]
  · by_cases hc : s.count < c.limit <;> simp [limiter, hf, hc, shift]

/-- What a timer firing does to the queue and the counters. -/
theorem timeout_control {α : Type} (s : Valve α) :
    (timeout s).count = s.count - 1 ∧ (timeout s).queue = s.queue ∧
      (timeout s).promises = s.promises ∧ (timeout s).started = s.started ∧
      (timeout s).settled = s.settled ∧ (timeout s).accepted = s.accepted ∧
      (timeout s).grants = s.grants ∧ (timeout s).log = s.log ∧
      (s.queue ≠ [] →
        (timeout s).requests = s.requests + 1 ∧ (timeout s).timers = s.timers + 1) ∧
      (s.queue = [] →
        (timeout s).requests = s.requests ∧ (timeout s).timers = s.timers) := by
  by_cases hq : s.queue = []
  · simp [timeout, hq]
  · have hl : s.queue.length ≠ 0 := fun h => hq (List.length_eq_zero.mp h)
    simp [timeout, hq, hl, shift]

/-- Every event keeps `count + requests ≤ timers`: each token request comes
with a timer, a grant turns a request into a unit of `count`, and a timer
takes one unit of `count` away. -/
theorem step_timers {α : Type} (c : Config α) (s : Valve α) (e : Event α) (s1 : Valve α)
    (hs : s.count + (s.requests : Int) ≤ (s.timers : Int)) (h : step c s e = some s1) :
    s1.count + (s1.requests : Int) ≤ (s1.timers : Int) := by
  cases e with
  | call self args =>
    simp only [step, Option.some.injEq] at h
    subst h
    obtain ⟨h1, -, -, -, -, h2, h3⟩ := limiter_control c s self args
    by_cases hf : s.queue.length = capacity c.size
    · obtain ⟨-, h4, h5⟩ := h2 hf
      rw [h1, h4, h5]; exact hs
    · obtain ⟨-, h4, h5⟩ := h3 hf
      by_cases hc : s.count < c.limit
      · rw [h1, (h4 hc).1, (h4 hc).2]; push_cast; omega
      · rw [h1, (h5 hc).1, (h5 hc).2]; exact hs
  | grant n =>
    simp only [step] at h
    split at h
    · exact absurd h (by simp)
    · rename_i hr
      simp only [Option.some.injEq] at h
      subst h
      obtain ⟨h1, h2, h3, -⟩ := granted_control c { s with requests := s.requests - 1 } n
      rw [h1, h2, h3]
      simp only
      omega
  | fail err =>
    simp only [step] at h
    split at h
    · exact absurd h (by simp)
    · rename_i hr
      simp only [Option.some.injEq] at h
      subst h
      simp only [refused]
      omega
  | fire =>
    simp only [step] at h
    split at h
    · exact absurd h (by simp)
    · rename_i hr
      simp only [Option.some.injEq] at h
      subst h
      obtain ⟨h1, -, -, -, -, -, -, -, h2, h3⟩ := timeout_control { s with timers := s.timers - 1 }
      by_cases hq : s.queue = []
      · rw [h1, (h3 hq).1, (h3 hq).2]
        simp only
        omega
      · rw [h1, (h2 hq).1, (h2 hq).2]
        simp only
        push_cast
        omega

/-- With a limit of at least 1, every event keeps: a non-empty queue has a
pending timer. -/
theorem step_not_stranded {α : Type} (c : Config α) (hl : 1 ≤ c.limit) (s : Valve α)
    (e : Event α) (s1 : Valve α)
    (hs : s.count + (s.requests : Int) ≤ (s.timers : Int) ∧ (s.queue ≠ [] → 1 ≤ s.timers))
    (h : step c s e = some s1) :
    s1.count + (s1.requests : Int) ≤ (s1.timers : Int) ∧ (s1.queue ≠ [] → 1 ≤ s1.timers) := by
  refine ⟨step_timers c s e s1 hs.1 h, ?_⟩
  cases e with
  | call self args =>
    simp only [step, Option.some.injEq] at h
    subst h
    obtain ⟨-, -, -, -, -, h2, h3⟩ := limiter_control c s self args
    intro hne
    by_cases hf : s.queue.length = capacity c.size
    · obtain ⟨h4, -, h5⟩ := h2 hf
      rw [h5]; rw [h4] at hne; exact hs.2 hne
    · obtain ⟨-, h4, h5⟩ := h3 hf
      by_cases hc : s.count < c.limit
      · rw [(h4 hc).2]; omega
      · rw [(h5 hc).2]
        have := hs.1
        omega
  | grant n =>
    simp only [step] at h
    split at h
    · exact absurd h (by simp)
    · simp only [Option.some.injEq] at h
      subst h
      obtain ⟨-, -, h3, h4, -⟩ := granted_control c { s with requests := s.requests - 1 } n
      intro hne
      rw [h3]
      rw [h4] at hne
      apply hs.2
      intro hq
      apply hne
      simp [hq]
  | fail err =>
    simp only [step] at h
    split at h
    · exact absurd h (by simp)
    · simp only [Option.some.injEq] at h
      subst h
      simpa [refused] using hs.2
  | fire =>
    simp only [step] at h
    split at h
    · exact absurd h (by simp)
    · simp only [Option.some.injEq] at h
      subst h
      obtain ⟨-, h1, -, -, -, -, -, -, h2, -⟩ := timeout_control { s with timers := s.timers - 1 }
      intro hne
      rw [h1] at hne
      rw [(h2 hne).2]
      simp

/-- With a limit of at most 0 nothing is ever requested: every event keeps
`count = 0` with no pending token request and no pending timer. -/
theorem step_idle {α : Type} (c : Config α) (hl : c.limit ≤ 0) (s : Valve α)
    (e : Event α) (s1 : Valve α)
    (hs : s.count = 0 ∧ s.requests = 0 ∧ s.timers = 0) (h : step c s e = some s1) :
    s1.count = 0 ∧ s1.requests = 0 ∧ s1.timers = 0 := by
  obtain ⟨h0, hr, ht⟩ := hs
  cases e with
  | call self args =>
    simp only [step, Option.some.injEq] at h
    subst h
    obtain ⟨h1, -, -, -, -, h2, h3⟩ := limiter_control c s self args
    have hc : ¬ s.count < c.limit := by omega
    by_cases hf : s.queue.length = capacity c.size
    · obtain ⟨-, h4, h5⟩ := h2 hf
      exact ⟨h1.trans h0, h4.trans hr, h5.trans ht⟩
    · obtain ⟨-, -, h5⟩ := h3 hf
      exact ⟨h1.trans h0, (h5 hc).1.trans hr, (h5 hc).2.trans ht⟩
  | grant n => simp [step, hr] at h
  | fail err => simp [step, hr] at h
  | fire => simp [step, ht] at h

/-- In every reachable state `count + requests ≤ timers`. -/
theorem reachable_timers {α : Type} (c : Config α) (es : List (Event α)) (s : Valve α)
    (h : run c (fresh α) es = some s) : s.count + (s.requests : Int) ≤ (s.timers : Int) :=
  run_invariant c (fun t => t.count + (t.requests : Int) ≤ (t.timers : Int)) (step_timers c)
    es (fresh α) s (by simp [fresh]) h

/-- With a limit of at least 1, in every reachable state a non-empty queue
has a pending timer. -/
theorem reachable_not_stranded {α : Type} (c : Config α) (hl : 1 ≤ c.limit)
    (es : List (Event α)) (s : Valve α) (h : run c (fresh α) es = some s) :
    s.queue ≠ [] → 1 ≤ s.timers :=
  (run_invariant c
    (fun t => t.count + (t.requests : Int) ≤ (t.timers : Int) ∧ (t.queue ≠ [] → 1 ≤ t.timers))
    (step_not_stranded c hl) es (fresh α) s (by simp [fresh]) h).2

/-- With a limit of at most 0, no reachable state has a pending token request. -/
theorem reachable_idle {α : Type} (c : Config α) (hl : c.limit ≤ 0)
    (es : List (Event α)) (s : Valve α) (h : run c (fresh α) es = some s) :
    s.count = 0 ∧ s.requests = 0 ∧ s.timers = 0 :=
  run_invariant c (fun t => t.count = 0 ∧ t.requests = 0 ∧ t.timers = 0)
    (step_idle c hl) es (fresh α) s (by simp [fresh]) h

/-- The queue and the counters do not depend on the wrapped function: two
dispatchers with the same `limit` and `size` that agree on them still agree
after the same event. -/
theorem step_same_control {α : Type} (c c1 : Config α) (hlim : c1.limit = c.limit)
    (hsize : c1.size = c.size) (s t : Valve α) (e : Event α) (s1 : Valve α)
    (hst : s.queue = t.queue ∧ s.count = t.count ∧ s.requests = t.requests ∧
      s.timers = t.timers ∧ s.promises = t.promises)
    (h : step c s e = some s1) :
    ∃ t1, step c1 t e = some t1 ∧ s1.queue = t1.queue ∧ s1.count = t1.count ∧
      s1.requests = t1.requests ∧ s1.timers = t1.timers ∧ s1.promises = t1.promises := by
  obtain ⟨hq, hc, hr, ht, hp⟩ := hst
  cases e with
  | call self args =>
    simp only [step, Option.some.injEq] at h
    subst h
    refine ⟨(limiter c1 t self args).2, rfl, ?_⟩
    obtain ⟨a1, a2, -, -, -, a3, a4⟩ := limiter_control c s self args
    obtain ⟨b1, b2, -, -, -, b3, b4⟩ := limiter_control c1 t self args
    rw [hsize, ← hq] at b3 b4
    rw [hlim, ← hc] at b4
    rw [a1, a2, b1, b2]
    by_cases hf : s.queue.length = capacity c.size
    · obtain ⟨a5, a6, a7⟩ := a3 hf
      obtain ⟨b5, b6, b7⟩ := b3 hf
      rw [a5, a6, a7, b5, b6, b7]
      simp [hc, hr, ht, hp]
    · obtain ⟨a5, a6, a7⟩ := a4 hf
      obtain ⟨b5, b6, b7⟩ := b4 hf
      rw [a5, b5]
      by_cases hlt : s.count < c.limit
      · rw [(a6 hlt).1, (a6 hlt).2, (b6 hlt).1, (b6 hlt).2]
        simp [hc, hr, ht, hp]
      · rw [(a7 hlt).1, (a7 hlt).2, (b7 hlt).1, (b7 hlt).2]
        simp [hc, hr, ht, hp]
  | grant n =>
    simp only [step] at h
    split at h
    · exact absurd h (by simp)
    · rename_i hne
      simp only [Option.some.injEq] at h
      subst h
      have hne1 : ¬ t.requests = 0 := by rw [← hr]; exact hne
      refine ⟨granted c1 { t with requests := t.requests - 1 } n, by simp [step, hne1], ?_⟩
      obtain ⟨a1, a2, a3, a4, a5, -⟩ := granted_control c { s with requests := s.requests - 1 } n
      obtain ⟨b1, b2, b3, b4, b5, -⟩ :=
        granted_control c1 { t with requests := t.requests - 1 } n
      rw [a1, a2, a3, a4, a5, b1, b2, b3, b4, b5]
      simp only [hq, hc, hr, ht, hp, and_self]
  | fail err =>
    simp only [step] at h
    split at h
    · exact absurd h (by simp)
    · rename_i hne
      simp only [Option.some.injEq] at h
      subst h
      have hne1 : ¬ t.requests = 0 := by rw [← hr]; exact hne
      refine ⟨refused { t with requests := t.requests - 1 } err, by simp [step, hne1], ?_⟩
      simp only [refused, hq, hc, hr, ht, hp, and_self]
  | fire =>
    simp only [step] at h
    split at h
    · exact absurd h (by simp)
    · rename_i hne
      simp only [Option.some.injEq] at h
      subst h
      have hne1 : ¬ t.timers = 0 := by rw [← ht]; exact hne
      refine ⟨timeout { t with timers := t.timers - 1 }, by simp [step, hne1], ?_⟩
      obtain ⟨a1, a2, a3, -, -, -, -, -, a4, a5⟩ :=
        timeout_control { s with timers := s.timers - 1 }
      obtain ⟨b1, b2, b3, -, -, -, -, -, b4, b5⟩ :=
        timeout_control { t with timers := t.timers - 1 }
      rw [a1, a2, a3, b1, b2, b3]
      by_cases hqe : s.queue = []
      · have hqt : t.queue = [] := by rw [← hq]; exact hqe
        rw [(a5 hqe).1, (a5 hqe).2, (b5 hqt).1, (b5 hqt).2]
        simp only [hq, hc, hr, ht, hp, and_self]
      · have hqt : t.queue ≠ [] := by rw [← hq]; exact hqe
        rw [(a4 hqe).1, (a4 hqe).2, (b4 hqt).1, (b4 hqt).2]
        simp only [hq, hc, hr, ht, hp, and_self]

/-- The same, after any sequence of events. -/
theorem run_same_control {α : Type} (c c1 : Config α) (hlim : c1.limit = c.limit)
    (hsize : c1.size = c.size) : ∀ (es : List (Event α)) (s t s1 : Valve α),
    (s.queue = t.queue ∧ s.count = t.count ∧ s.requests = t.requests ∧
      s.timers = t.timers ∧ s.promises = t.promises) →
    run c s es = some s1 →
    ∃ t1, run c1 t es = some t1 ∧ s1.queue = t1.queue ∧ s1.count = t1.count ∧
      s1.requests = t1.requests ∧ s1.timers = t1.timers ∧ s1.promises = t1.promises := by
  intro es
  induction es with
  | nil =>
    intro s t s1 hst h
    simp only [run, Option.some.injEq] at h
    subst h
    exact ⟨t, rfl, hst⟩
  | cons e es ih =>
    intro s t s1 hst h
    simp only [run] at h
    cases hs : step c s e with
    | none => simp [hs] at h
    | some s2 =>
      rw [hs] at h
      obtain ⟨t2, ht2, hrel⟩ := step_same_control c c1 hlim hsize s t e s2 hst hs
      obtain ⟨t1, ht1, hrel1⟩ := ih s2 t2 s1 hrel h
      exact ⟨t1, by simp [run, ht2, ht1], hrel1⟩

/-- Claim C11, evaluated on the code: one call of the limiter followed by the
firing of the timer it set, before the token request is granted, leads to a
reachable state with `count = -1`; the same happens when the token request
fails and the timer fires afterwards. -/
theorem count_goes_negative :
    ∃ s t : Valve Nat,
      run ⟨fun _ _ => Outcome.returned Returned.pends, 2, none⟩ (fresh Nat)
        [Event.call 0 [], Event.fire] = some s ∧
      run ⟨fun _ _ => Outcome.returned Returned.pends, 2, none⟩ (fresh Nat)
        [Event.call 0 [], Event.fail 7, Event.fire] = some t ∧
      Reachable ⟨fun _ _ => Outcome.returned Returned.pends, 2, none⟩ s ∧
      s.count = -1 ∧ s.grants = 0 ∧ ¬ 0 ≤ s.count ∧ t.count = -1 ∧ t.grants = 0 :=
  ⟨_, _, rfl, rfl, ⟨[Event.call 0 [], Event.fire], rfl⟩,
    by decide, by decide, by decide, by decide, by decide⟩

/-- Claim C12.  When a pending token request fails in a reachable state, the
queue keeps its entries in their order, no promise is resolved or rejected,
nothing is started, and `count` is not changed; and if the queue is not empty
a timer is still pending, whose firing issues a new token request and leaves
the queue as it is. -/
theorem failed_request_keeps_entries {α : Type} (c : Config α) (es : List (Event α))
    (s : Valve α) (e : α) (s1 : Valve α) (h : run c (fresh α) es = some s)
    (h1 : step c s (Event.fail e) = some s1) :
    s1.queue = s.queue ∧ s1.settled = s.settled ∧ s1.started = s.started ∧
      s1.accepted = s.accepted ∧ s1.count = s.count ∧ s1.timers = s.timers ∧
      (s1.queue ≠ [] →
        1 ≤ s1.timers ∧
          ∃ s2, step c s1 Event.fire = some s2 ∧ s2.requests = s1.requests + 1 ∧
            s2.queue = s1.queue ∧ s2.settled = s1.settled) := by
  have hreq : ¬ s.requests = 0 := by
    intro h0
    simp [step, h0] at h1
  have hs1 : s1 = refused { s with requests := s.requests - 1 } e := by
    simp only [step, hreq, if_false, Option.some.injEq] at h1
    exact h1.symm
  have hl : 1 ≤ c.limit := by
    by_contra hcon
    exact hreq (reachable_idle c (by omega) es s h).2.1
  have htim := reachable_not_stranded c hl es s h
  subst hs1
  refine ⟨rfl, rfl, rfl, rfl, rfl, rfl, ?_⟩
  intro hne
  have hne1 : s.queue ≠ [] := hne
  have ht1 : 1 ≤ s.timers := htim hne1
  refine ⟨ht1, timeout { refused { s with requests := s.requests - 1 } e with
    timers := s.timers - 1 }, ?_, ?_⟩
  · have : ¬ s.timers = 0 := by omega
    simp [step, refused, this]
  · obtain ⟨-, a2, -, -, a3, -, -, -, a4, -⟩ :=
      timeout_control { refused { s with requests := s.requests - 1 } e with
        timers := s.timers - 1 }
    exact ⟨(a4 hne1).1, a2, a3⟩

/-- Witness for `failed_request_keeps_entries`: two calls with `limit = 1`,
the first token request fails; both entries stay queued with a timer pending. -/
theorem failed_request_keeps_entries_witness :
    ∃ s1 : Valve Nat,
      run ⟨fun _ _ => Outcome.returned Returned.pends, 1, none⟩ (fresh Nat)
        [Event.call 1 [], Event.call 2 [], Event.fail 7] = some s1 ∧
      s1.queue = [⟨1, [], 0⟩, ⟨2, [], 1⟩] ∧ 1 ≤ s1.timers :=
  ⟨_, rfl,
    (failed_request_keeps_entries (α := Nat) ⟨fun _ _ => Outcome.returned Returned.pends, 1, none⟩
      [Event.call 1 [], Event.call 2 []] _ 7 _ rfl rfl).1,
    ((failed_request_keeps_entries (α := Nat) ⟨fun _ _ => Outcome.returned Returned.pends, 1, none⟩
      [Event.call 1 [], Event.call 2 []] _ 7 _ rfl rfl).2.2.2.2.2.2 (by decide)).1⟩

/-- Claim C13.  In every reachable state the pending timers are at least
`count`; a timer that fires takes exactly 1 off `count`, leaves the queue and
every promise as they are, and issues one token request with one new timer
exactly when the queue is not empty; and the queue, `count`, the pending
requests and the pending timers are the same whatever the wrapped function
does (returns, rejects, throws or never settles). -/
theorem release_scheduled_whatever_outcome {α : Type} (c : Config α) (es : List (Event α))
    (s : Valve α) (h : run c (fresh α) es = some s) :
    s.count ≤ (s.timers : Int) ∧
      (∀ s2, step c s Event.fire = some s2 →
        s2.count = s.count - 1 ∧ s2.queue = s.queue ∧ s2.settled = s.settled ∧
          (s.queue ≠ [] → s2.requests = s.requests + 1 ∧ s2.timers = s.timers) ∧
          (s.queue = [] → s2.requests = s.requests ∧ s2.timers + 1 = s.timers)) ∧
      (∀ fn1 : α → List α → Outcome α,
        ∃ t, run { c with fn := fn1 } (fresh α) es = some t ∧ t.queue = s.queue ∧
          t.count = s.count ∧ t.requests = s.requests ∧ t.timers = s.timers) := by
  refine ⟨?_, ?_, ?_⟩
  · have := reachable_timers c es s h
    omega
  · intro s2 h2
    have ht : ¬ s.timers = 0 := by
      intro h0
      simp [step, h0] at h2
    simp only [step, ht, if_false, Option.some.injEq] at h2
    subst h2
    obtain ⟨a1, a2, -, -, a3, -, -, -, a4, a5⟩ :=
      timeout_control { s with timers := s.timers - 1 }
    refine ⟨a1, a2, a3, ?_, ?_⟩
    · intro hq
      refine ⟨(a4 hq).1, ?_⟩
      rw [(a4 hq).2]
      simp only
      omega
    · intro hq
      refine ⟨(a5 hq).1, ?_⟩
      rw [(a5 hq).2]
      simp only
      omega
  · intro fn1
    obtain ⟨t, ht, h1, h2, h3, h4, -⟩ :=
      run_same_control c { c with fn := fn1 } rfl rfl es (fresh α) (fresh α) s
        ⟨rfl, rfl, rfl, rfl, rfl⟩ h
    exact ⟨t, ht, h1.symm, h2.symm, h3.symm, h4.symm⟩

/-- Witness for `release_scheduled_whatever_outcome`: a call and its grant;
one slot is occupied and one timer is pending. -/
theorem release_scheduled_whatever_outcome_witness :
    ∃ s : Valve Nat,
      run ⟨fun _ _ => Outcome.returned (Returned.rejects 9), 2, none⟩ (fresh Nat)
        [Event.call 1 [], Event.grant 37] = some s ∧
      s.count = 1 ∧ s.timers = 1 ∧ s.count ≤ (s.timers : Int) :=
  ⟨_, rfl, by decide, by decide,
    (release_scheduled_whatever_outcome (α := Nat)
      ⟨fun _ _ => Outcome.returned (Returned.rejects 9), 2, none⟩
      [Event.call 1 [], Event.grant 37] _ rfl).1⟩

/-- Claim C15.  When the queue is not full, the limiter appends the entry and
then calls `shift`, which issues exactly one token request and sets exactly
one timer, if and only if `count < limit`; when `count ≥ limit` the entry is
only appended: no token request and no timer are created. -/
theorem limiter_advances_iff {α : Type} (c : Config α) (s : Valve α) (self : α)
    (args : List α) (h : s.queue.length ≠ capacity c.size) :
    (limiter c s self args).2.queue = s.queue ++ [⟨self, args, s.promises⟩] ∧
      (limiter c s self args).2.count = s.count ∧
      ((limiter c s self args).2 = shift
          { s with promises := s.promises + 1,
                   queue := s.queue ++ [⟨self, args, s.promises⟩],
                   accepted := s.accepted ++ [⟨self, args, s.promises⟩] }
        ↔ s.count < c.limit) ∧
      (s.count < c.limit →
        (limiter c s self args).2.requests = s.requests + 1 ∧
          (limiter c s self args).2.timers = s.timers + 1) ∧
      (c.limit ≤ s.count →
        (limiter c s self args).2.requests = s.requests ∧
          (limiter c s self args).2.timers = s.timers) := by
  obtain ⟨a1, -, -, -, -, -, a3⟩ := limiter_control c s self args
  obtain ⟨a4, a5, a6⟩ := a3 h
  refine ⟨a4, a1, ?_, a5, fun hge => a6 (by omega)⟩
  by_cases hc : s.count < c.limit
  · simp [limiter, h, hc]
  · simp only [hc, iff_false]
    intro heq
    have h1 := (a6 hc).1
    rw [heq] at h1
    simp [shift] at h1

/-- Witness for `limiter_advances_iff`: the first call on a fresh dispatcher
with `limit = 2` issues one token request and sets one timer. -/
theorem limiter_advances_iff_witness :
    (limiter (α := Nat) ⟨fun _ _ => Outcome.returned Returned.pends, 2, none⟩
        (fresh Nat) 7 [8]).2.requests = 0 + 1 ∧
      (limiter (α := Nat) ⟨fun _ _ => Outcome.returned Returned.pends, 2, none⟩
        (fresh Nat) 7 [8]).2.timers = 0 + 1 :=
  (limiter_advances_iff (α := Nat) ⟨fun _ _ => Outcome.returned Returned.pends, 2, none⟩
    (fresh Nat) 7 [8] (by decide)).2.2.2.1 (by decide)

/-- Claim C16, evaluated on the code: a call, the firing of its timer before
the token request is granted (the queue is not empty, so a second request is
issued), then both grants.  The first grant starts the only entry; the second
finds the queue empty, starts nothing, logs a `TypeError`, and still
increments `count`. -/
theorem grant_on_empty_queue :
    ∃ s t : Valve Nat,
      run ⟨fun _ _ => Outcome.returned Returned.pends, 2, none⟩ (fresh Nat)
        [Event.call 0 [], Event.fire, Event.grant 37] = some s ∧
      step ⟨fun _ _ => Outcome.returned Returned.pends, 2, none⟩ s (Event.grant 36) = some t ∧
      s.requests = 1 ∧ s.queue = [] ∧ s.count = 0 ∧ s.started = [⟨0, [], 0⟩] ∧
      t.count = 1 ∧ t.started = s.started ∧ t.grants = 2 ∧
      t.log = [LogLine.tokensLeft 37, LogLine.tokensLeft 36, LogLine.err Caught.typeError] :=
  ⟨_, _, rfl, rfl, by decide, by decide, by decide, by decide, by decide, by decide,
    by decide, by decide⟩

/-- Claim C18.  With `limit ≥ 1`, in every reachable state with a non-empty
queue at least one timer is pending, and its firing leaves the queue as it is
and issues a new token request. -/
theorem no_entry_stranded {α : Type} (c : Config α) (hl : 1 ≤ c.limit)
    (es : List (Event α)) (s : Valve α) (h : run c (fresh α) es = some s)
    (hq : s.queue ≠ []) :
    1 ≤ s.timers ∧
      ∃ s2, step c s Event.fire = some s2 ∧ s2.queue = s.queue ∧
        s2.requests = s.requests + 1 ∧ 1 ≤ s2.timers := by
  have ht : 1 ≤ s.timers := reachable_not_stranded c hl es s h hq
  have hne : ¬ s.timers = 0 := by omega
  refine ⟨ht, timeout { s with timers := s.timers - 1 }, by simp [step, hne], ?_⟩
  obtain ⟨-, a2, -, -, -, -, -, -, a4, -⟩ := timeout_control { s with timers := s.timers - 1 }
  refine ⟨a2, (a4 hq).1, ?_⟩
  rw [(a4 hq).2]
  omega

/-- Witness for `no_entry_stranded`: with `limit = 1`, after a call, its
grant and a second call that only queues its entry, a timer is pending. -/
theorem no_entry_stranded_witness :
    ∃ s : Valve Nat,
      run ⟨fun _ _ => Outcome.returned Returned.pends, 1, none⟩ (fresh Nat)
        [Event.call 1 [], Event.grant 37, Event.call 2 []] = some s ∧
      s.queue = [⟨2, [], 1⟩] ∧ s.requests = 0 ∧ 1 ≤ s.timers :=
  ⟨_, rfl, by decide, by decide,
    (no_entry_stranded (α := Nat) ⟨fun _ _ => Outcome.returned Returned.pends, 1, none⟩
      (by decide) [Event.call 1 [], Event.grant 37, Event.call 2 []] _ rfl (by decide)).1⟩

/-! ## Properties of the token bucket -/

/-- A call of `removeTokens` keeps `0 ≤ available ≤ capacity`. -/
theorem removeTokens_bounds (b : TokenBucket) (count : Nat)
    (h : 0 ≤ b.available ∧ b.available ≤ (b.capacity : Int)) :
    0 ≤ (b.removeTokens count).available ∧
      (b.removeTokens count).available ≤ ((b.removeTokens count).capacity : Int) ∧
      (b.removeTokens count).capacity = b.capacity ∧
      (b.removeTokens count).refillAmount = b.refillAmount := by
  obtain ⟨h0, h1⟩ := h
  by_cases hc : (count : Int) ≤ b.available
  · have e : b.removeTokens count = { b with available := b.available - count } := by
      simp [TokenBucket.removeTokens, hc]
    rw [e]
    exact ⟨by simp only; omega, by simp only; omega, rfl, rfl⟩
  · have e : b.removeTokens count = { b with waiters := b.waiters ++ [count] } := by
      simp [TokenBucket.removeTokens, hc]
    rw [e]
    exact ⟨h0, h1, rfl, rfl⟩

/-- A refill leaves the capacity and the policy alone, and the tokens it
leaves are at most the tokens before plus `refillAmount`, capped at
`capacity`, and at least 0. -/
theorem refill_bounds (b : TokenBucket)
    (h : 0 ≤ b.available ∧ b.available ≤ (b.capacity : Int)) :
    0 ≤ b.refill.available ∧ b.refill.available ≤ (b.refill.capacity : Int) ∧
      b.refill.capacity = b.capacity ∧ b.refill.refillAmount = b.refillAmount := by
  obtain ⟨h0, h1⟩ := h
  have hcap : b.refill.capacity = b.capacity := by
    unfold TokenBucket.refill
    cases hw : b.waiters with
    | nil => rfl
    | cons count rest =>
      dsimp only
      repeat' split
      all_goals rfl
  have hpol : b.refill.refillAmount = b.refillAmount := by
    unfold TokenBucket.refill
    cases hw : b.waiters with
    | nil => rfl
    | cons count rest =>
      dsimp only
      repeat' split
      all_goals rfl
  have hav : 0 ≤ b.refill.available ∧ b.refill.available ≤ (b.capacity : Int) := by
    unfold TokenBucket.refill
    cases hw : b.waiters with
    | nil =>
      dsimp only
      repeat' split
      all_goals (constructor <;> omega)
    | cons count rest =>
      dsimp only
      repeat' split
      all_goals (dsimp only; constructor <;> omega)
  exact ⟨hav.1, by rw [hcap]; exact hav.2, hcap, hpol⟩

/-- Any sequence of calls and refills keeps `0 ≤ available ≤ capacity`. -/
theorem run_bounds : ∀ (es : List BucketEvent) (b : TokenBucket),
    0 ≤ b.available ∧ b.available ≤ (b.capacity : Int) →
    0 ≤ (b.run es).available ∧ (b.run es).available ≤ ((b.run es).capacity : Int) ∧
      (b.run es).capacity = b.capacity := by
  intro es
  induction es with
  | nil => intro b h; exact ⟨h.1, h.2, rfl⟩
  | cons e es ih =>
    intro b h
    cases e with
    | removeTokens count =>
      obtain ⟨h1, h2, h3, -⟩ := removeTokens_bounds b count h
      obtain ⟨i1, i2, i3⟩ := ih (b.removeTokens count) ⟨h1, h2⟩
      exact ⟨i1, i2, i3.trans h3⟩
    | refill =>
      obtain ⟨h1, h2, h3, -⟩ := refill_bounds b h
      obtain ⟨i1, i2, i3⟩ := ih b.refill ⟨h1, h2⟩
      exact ⟨i1, i2, i3.trans h3⟩

/-- Claim C14.  The bucket of size 38 with 2 tokens added per interval,
started with any number of tokens from 0 to 38, has `0 ≤ available ≤ 38`
after every sequence of `removeTokens` calls and refills. -/
theorem bucket_available_bounded (tokensLeft : Int) (h0 : 0 ≤ tokensLeft)
    (h1 : tokensLeft ≤ 38) (es : List BucketEvent) :
    0 ≤ ((bucket tokensLeft).run es).available ∧
      ((bucket tokensLeft).run es).available ≤ (((bucket tokensLeft).run es).capacity : Int) ∧
      ((bucket tokensLeft).run es).capacity = 38 :=
  run_bounds es (bucket tokensLeft) ⟨h0, h1⟩

/-- Witness for `bucket_available_bounded`: a full bucket, two tokens taken,
three refills. -/
theorem bucket_available_bounded_witness :
    ((bucket 38).run [BucketEvent.removeTokens 1, BucketEvent.removeTokens 1,
        BucketEvent.refill, BucketEvent.refill, BucketEvent.refill]).available = 38 ∧
      0 ≤ ((bucket 38).run [BucketEvent.removeTokens 1, BucketEvent.removeTokens 1,
        BucketEvent.refill, BucketEvent.refill, BucketEvent.refill]).available :=
  ⟨by decide,
    (bucket_available_bounded 38 (by decide) (by decide)
      [BucketEvent.removeTokens 1, BucketEvent.removeTokens 1,
        BucketEvent.refill, BucketEvent.refill, BucketEvent.refill]).1⟩

/-! ## Properties of the constructor -/

/-- What the constructor returns when it does not throw. -/
theorem newShopify_ok (o : Options) (inst : Instance)
    (h : newShopify (some o) = Except.ok inst) :
    inst =
      { options := { o with timeout := some (match o.timeout with
                                              | some t => t
                                              | none => 60000) },
        callLimits := { remaining := JSVal.undefined, current := JSVal.undefined,
                        max := JSVal.undefined },
        baseUrl := { auth := if !truthy o.accessToken then
                               some (template o.apiKey ++ ":" ++ template o.password)
                             else none,
                     hostname := template o.shopName ++ ".myshopify.com",
                     protocol := "https:" },
        request := match o.autoLimit with
          | AutoLimit.absent => none
          | a => some { limit := (assignAutoLimit a).1,
                        interval := (assignAutoLimit a).2,
                        size := none } } := by
  unfold newShopify at h
  simp only at h
  split at h
  · exact absurd h (by simp)
  · simp only [Except.ok.injEq] at h
    exact h.symm

/-- Claim C17.  When the constructor succeeds: with `autoLimit` absent or
falsy `request` is not wrapped; otherwise it is wrapped by `valvelet` with
`limit = autoLimit.calls` if given, else 2, with
`interval = autoLimit.interval` if given, else 1000, and with `size` omitted,
for which, as for `size = 0`, the queue capacity is `2 ^ 32 - 1 = 4294967295`. -/
theorem autoLimit_defaults (o : Options) (inst : Instance)
    (h : newShopify (some o) = Except.ok inst) :
    (o.autoLimit = AutoLimit.absent → inst.request = none) ∧
      (o.autoLimit = AutoLimit.flag →
        inst.request = some { limit := 2, interval := 1000, size := none }) ∧
      (∀ calls interval, o.autoLimit = AutoLimit.object calls interval →
        inst.request = some { limit := calls.getD 2, interval := interval.getD 1000,
                              size := none }) ∧
      (∀ v, inst.request = some v → capacity v.size = 4294967295) ∧
      capacity none = 4294967295 ∧ capacity (some 0) = 4294967295 := by
  have hi := newShopify_ok o inst h
  subst hi
  refine ⟨?_, ?_, ?_, ?_, by decide, by decide⟩
  · intro ha
    simp [ha]
  · intro ha
    simp [ha, assignAutoLimit]
  · intro calls interval ha
    cases calls <;> cases interval <;> simp [ha, assignAutoLimit]
  · intro v hv
    cases ha : o.autoLimit with
    | absent => simp [ha] at hv
    | flag =>
      simp only [ha, Option.some.injEq] at hv
      subst hv
      exact (by decide : capacity none = 4294967295)
    | object calls interval =>
      simp only [ha, Option.some.injEq] at hv
      subst hv
      exact (by decide : capacity none = 4294967295)

/-- Witness for `autoLimit_defaults`: an access token, `autoLimit` with
`calls: 5` and no `interval`. -/
theorem autoLimit_defaults_witness :
    ∃ inst,
      newShopify (some { shopName := some "shop", apiKey := none, password := none,
                         accessToken := some "token",
                         autoLimit := AutoLimit.object (some 5) none, timeout := none })
        = Except.ok inst ∧
      inst.request = some { limit := 5, interval := 1000, size := none } :=
  ⟨_, rfl,
    (autoLimit_defaults
      { shopName := some "shop", apiKey := none, password := none,
        accessToken := some "token",
        autoLimit := AutoLimit.object (some 5) none, timeout := none } _ rfl).2.2.1
      (some 5) none rfl⟩

/-- Claim C19.  The constructor throws 'Missing or invalid options' exactly
when `options` is missing, or `shopName` is missing or empty, or `accessToken`
is absent while `apiKey` or `password` is absent, or `accessToken` is present
while `apiKey` or `password` is present; it succeeds exactly when `shopName`
is given with either an `accessToken` alone or an `apiKey` and a `password`
without an `accessToken`; on success `timeout` is the given one, or 60000 when
none is given, and `callLimits` holds `undefined` three times.  Absent means
`undefined` or the empty string. -/
theorem constructor_throws_iff (options : Option Options) :
    (newShopify options = Except.error "Missing or invalid options" ↔
        options = none ∨
        ∃ o, options = some o ∧
          (truthy o.shopName = false ∨
            (truthy o.accessToken = false ∧
              (truthy o.apiKey = false ∨ truthy o.password = false)) ∨
            (truthy o.accessToken = true ∧
              (truthy o.apiKey = true ∨ truthy o.password = true)))) ∧
      ((∃ inst, newShopify options = Except.ok inst) ↔
        ∃ o, options = some o ∧ truthy o.shopName = true ∧
          ((truthy o.accessToken = true ∧ truthy o.apiKey = false ∧
              truthy o.password = false) ∨
            (truthy o.accessToken = false ∧ truthy o.apiKey = true ∧
              truthy o.password = true))) ∧
      (∀ msg, newShopify options = Except.error msg → msg = "Missing or invalid options") ∧
      (∀ o inst, options = some o → newShopify options = Except.ok inst →
        inst.options.timeout = some (o.timeout.getD 60000) ∧
          inst.callLimits = { remaining := JSVal.undefined, current := JSVal.undefined,
                              max := JSVal.undefined }) := by
  cases options with
  | none =>
    refine ⟨by simp [newShopify], by simp [newShopify], ?_, ?_⟩
    · intro msg h
      simp only [newShopify, Except.error.injEq] at h
      exact h.symm
    · intro o inst h
      exact absurd h (by simp)
  | some o =>
    refine ⟨?_, ?_, ?_, ?_⟩
    · simp only [newShopify, Option.some.injEq, exists_eq_left', false_or]
      cases truthy o.shopName <;> cases truthy o.accessToken <;> cases truthy o.apiKey <;>
        cases truthy o.password <;> simp
    · simp only [newShopify, Option.some.injEq, exists_eq_left']
      cases truthy o.shopName <;> cases truthy o.accessToken <;> cases truthy o.apiKey <;>
        cases truthy o.password <;> simp
    · intro msg h
      simp only [newShopify] at h
      split at h
      · simp only [Except.error.injEq] at h
        exact h.symm
      · exact absurd h (by simp)
    · intro o1 inst ho h
      simp only [Option.some.injEq] at ho
      subst ho
      have hi := newShopify_ok o inst h
      subst hi
      cases o.timeout <;> simp

end ShopifyApi
